import Mathlib

set_option linter.unusedVariables false

/-!
Shallow embedding of `packer.py` (sheetris): three 2D bin-packing strategies
(Guillotine, MaxRects, Skyline).  The Python source computes with
unconstrained Python numbers and uses only addition, subtraction and order
comparisons, so the algorithms are parametric in the ordered commutative
group of coordinates; exact integers (`ℤ`) are the executable stand-in used
here.  Packer state keeps `sheets_prev` (closed sheets, oldest first)
together with `current_sheet`; the Python list `self.sheets` is
`sheets_prev ++ [current_sheet]` and `sheet_index = len(sheets) - 1 =
sheets_prev.length`.  The caller-opaque `piece_data` argument is threaded
through the Python code without being inspected and is omitted here.
-/

/-- `FreeRectangle` from `packer.py`: a free axis-aligned rectangle of a sheet. -/
structure FreeRectangle where
  x : ℤ
  y : ℤ
  width : ℤ
  height : ℤ
deriving DecidableEq

/-- One entry of a sheet's `placed_pieces` list: `(x, y, width, height, rotated)`
(the opaque `piece_data` component is omitted). -/
structure Placed where
  x : ℤ
  y : ℤ
  width : ℤ
  height : ℤ
  rotated : Bool
deriving DecidableEq

/-- The tuple returned by a successful `pack_piece`:
`(sheet_index, x, y, placed_width, placed_height, rotated)`. -/
structure Placement where
  sheet_index : ℕ
  x : ℤ
  y : ℤ
  width : ℤ
  height : ℤ
  rotated : Bool
deriving DecidableEq

/-- Python's two-argument `min`: the first argument wins ties. -/
def pymin (a b : ℤ) : ℤ := if a ≤ b then a else b

/-- Python's two-argument `max`: the first argument wins ties. -/
def pymax (a b : ℤ) : ℤ := if b ≤ a then a else b

/-- The occupied rectangle of a recorded placement. -/
def Placed.rect (p : Placed) : FreeRectangle := ⟨p.x, p.y, p.width, p.height⟩

/-- Axis-aligned rectangles that do not intersect with positive area
(their open interiors are disjoint). -/
def FreeRectangle.disj (a b : FreeRectangle) : Prop :=
  a.x + a.width ≤ b.x ∨ b.x + b.width ≤ a.x ∨ a.y + a.height ≤ b.y ∨ b.y + b.height ≤ a.y

/-- `a` lies inside `b`. -/
def FreeRectangle.subrect (a b : FreeRectangle) : Prop :=
  b.x ≤ a.x ∧ b.y ≤ a.y ∧ a.x + a.width ≤ b.x + b.width ∧ a.y + a.height ≤ b.y + b.height

/-- Rectangle contained in the sheet `[0, W] × [0, H]`. -/
def FreeRectangle.inBounds (W H : ℤ) (r : FreeRectangle) : Prop :=
  0 ≤ r.x ∧ 0 ≤ r.y ∧ r.x + r.width ≤ W ∧ r.y + r.height ≤ H

/-- Positive width and height. -/
def FreeRectangle.pos (r : FreeRectangle) : Prop := 0 < r.width ∧ 0 < r.height

/-- Occupied rectangles of two placements do not intersect with positive area. -/
def Placed.disjointWith (p q : Placed) : Prop := p.rect.disj q.rect

instance (a b : FreeRectangle) : Decidable (a.disj b) := by
  unfold FreeRectangle.disj; infer_instance

instance (a b : FreeRectangle) : Decidable (a.subrect b) := by
  unfold FreeRectangle.subrect; infer_instance

instance (W H : ℤ) (r : FreeRectangle) : Decidable (r.inBounds W H) := by
  unfold FreeRectangle.inBounds; infer_instance

instance (r : FreeRectangle) : Decidable r.pos := by
  unfold FreeRectangle.pos; infer_instance

instance (p q : Placed) : Decidable (p.disjointWith q) := by
  unfold Placed.disjointWith; infer_instance

/-- One sheet of a rectangle-based packer (Guillotine and MaxRects share this
shape in the source: a dict with `free_rects` and `placed_pieces`). -/
structure GSheet where
  free_rects : List FreeRectangle
  placed_pieces : List Placed
deriving DecidableEq

/-- State of a rectangle-based packer (`GuillotinePacker` / `MaxRectsPacker`). -/
structure GState where
  sheet_width : ℤ
  sheet_height : ℤ
  saw_kerf : ℤ
  sheets_prev : List GSheet
  current_sheet : GSheet
deriving DecidableEq

/-- `len(self.sheets)` of the Python object. -/
def GState.sheetCount (st : GState) : ℕ := st.sheets_prev.length + 1

/-- All sheets of the packer, oldest first (the Python `self.sheets`). -/
def GState.allSheets (st : GState) : List GSheet := st.sheets_prev ++ [st.current_sheet]

namespace Guillotine

/-- The sheet built by `_start_new_sheet`. -/
def freshSheet (W H : ℤ) : GSheet := ⟨[⟨0, 0, W, H⟩], []⟩

/-- `GuillotinePacker.__init__`. -/
def init (W H kerf : ℤ) : GState := ⟨W, H, kerf, [], freshSheet W H⟩

/-- `GuillotinePacker._start_new_sheet`. -/
def start_new_sheet (st : GState) : GState :=
  { st with sheets_prev := st.sheets_prev ++ [st.current_sheet],
            current_sheet := freshSheet st.sheet_width st.sheet_height }

/-- One candidate test of `_find_best_free_rect`: try piece dimensions `w × h`
(already swapped when `rot` is true) in rectangle `r`, updating the running
best `(best_rect, best_rotated, best_score)` when the score strictly improves. -/
def tryRect (acc : Option (FreeRectangle × Bool × ℤ)) (r : FreeRectangle)
    (w h : ℤ) (rot : Bool) : Option (FreeRectangle × Bool × ℤ) :=
  if w ≤ r.width ∧ h ≤ r.height then
    let score := pymin (r.width - w) (r.height - h)
    match acc with
    | none => some (r, rot, score)
    | some (_, _, s0) => if score < s0 then some (r, rot, score) else acc
  else acc

/-- One iteration of the `for rect in free_rects` loop of
`_find_best_free_rect`: normal orientation first, then rotated. -/
def stepRect (pw ph : ℤ) (acc : Option (FreeRectangle × Bool × ℤ))
    (r : FreeRectangle) : Option (FreeRectangle × Bool × ℤ) :=
  tryRect (tryRect acc r pw ph false) r ph pw true

/-- `GuillotinePacker._find_best_free_rect` (the unused score component of the
Python return value is dropped). -/
def find_best_free_rect (pw ph : ℤ) (rects : List FreeRectangle) :
    Option (FreeRectangle × Bool) :=
  (rects.foldl (stepRect pw ph) none).map fun b => (b.1, b.2.1)

/-- `GuillotinePacker._split_free_rect`. -/
def split_free_rect (kerf : ℤ) (rect : FreeRectangle)
    (piece_x piece_y piece_width piece_height : ℤ) : List FreeRectangle :=
  let leftover_x := rect.width - piece_width
  let leftover_y := rect.height - piece_height
  if leftover_y < leftover_x then
    (if kerf < leftover_x then
      [⟨piece_x + piece_width + kerf, rect.y, leftover_x - kerf, rect.height⟩] else []) ++
    (if kerf < leftover_y then
      [⟨rect.x, piece_y + piece_height + kerf, piece_width, leftover_y - kerf⟩] else [])
  else
    (if kerf < leftover_y then
      [⟨rect.x, piece_y + piece_height + kerf, rect.width, leftover_y - kerf⟩] else []) ++
    (if kerf < leftover_x then
      [⟨piece_x + piece_width + kerf, rect.y, leftover_x - kerf, piece_height⟩] else [])

/-- The placement half of `GuillotinePacker.pack_piece`, once the winning
rectangle and orientation are known: record the placement, remove the used
rectangle from the free list (Python `list.remove`, first occurrence) and
append the split remainders. -/
def place (st : GState) (r : FreeRectangle) (rotated : Bool) (pw ph : ℤ) :
    GState × Option Placement :=
  let fw := if rotated then ph else pw
  let fh := if rotated then pw else ph
  let sheet := st.current_sheet
  let sheet' : GSheet :=
    { free_rects := sheet.free_rects.erase r ++ split_free_rect st.saw_kerf r r.x r.y fw fh,
      placed_pieces := sheet.placed_pieces ++ [⟨r.x, r.y, fw, fh, rotated⟩] }
  ({ st with current_sheet := sheet' },
   some ⟨st.sheets_prev.length, r.x, r.y, fw, fh, rotated⟩)

/-- `GuillotinePacker.pack_piece`. -/
def pack_piece (st : GState) (pw ph : ℤ) : GState × Option Placement :=
  match find_best_free_rect pw ph st.current_sheet.free_rects with
  | some (r, rot) => place st r rot pw ph
  | none =>
    let st' := start_new_sheet st
    match find_best_free_rect pw ph st'.current_sheet.free_rects with
    | some (r, rot) => place st' r rot pw ph
    | none => (st', none)

/-- Pack a sequence of pieces, keeping only the final state. -/
def run (st : GState) : List (ℤ × ℤ) → GState
  | [] => st
  | p :: ps => run (pack_piece st p.1 p.2).1 ps

/-- Pack a sequence of pieces, returning the final state and the call results. -/
def runOut (st : GState) : List (ℤ × ℤ) → GState × List (Option Placement)
  | [] => (st, [])
  | p :: ps =>
    let r := pack_piece st p.1 p.2
    let rest := runOut r.1 ps
    (rest.1, r.2 :: rest.2)

end Guillotine

namespace MaxRects

/-- `MaxRectsPacker._start_new_sheet` builds the same fresh sheet. -/
def freshSheet (W H : ℤ) : GSheet := ⟨[⟨0, 0, W, H⟩], []⟩

/-- `MaxRectsPacker.__init__`. -/
def init (W H kerf : ℤ) : GState := ⟨W, H, kerf, [], freshSheet W H⟩

/-- `MaxRectsPacker._start_new_sheet`. -/
def start_new_sheet (st : GState) : GState :=
  { st with sheets_prev := st.sheets_prev ++ [st.current_sheet],
            current_sheet := freshSheet st.sheet_width st.sheet_height }

/-- `MaxRectsPacker._is_contained_in`. -/
def is_contained_in (a b : FreeRectangle) : Prop :=
  b.x ≤ a.x ∧ b.y ≤ a.y ∧ a.x + a.width ≤ b.x + b.width ∧ a.y + a.height ≤ b.y + b.height

instance (a b : FreeRectangle) : Decidable (is_contained_in a b) := by
  unfold is_contained_in; infer_instance

/-- One candidate test of `MaxRectsPacker._find_best_free_rect` with its
secondary (long-side) tie-break. -/
def tryRect (acc : Option (FreeRectangle × Bool × ℤ × ℤ)) (r : FreeRectangle)
    (w h : ℤ) (rot : Bool) : Option (FreeRectangle × Bool × ℤ × ℤ) :=
  if w ≤ r.width ∧ h ≤ r.height then
    let lx := r.width - w
    let ly := r.height - h
    let ss := pymin lx ly
    let ls := pymax lx ly
    match acc with
    | none => some (r, rot, ss, ls)
    | some (_, _, s0, l0) =>
      if ss < s0 ∨ (ss = s0 ∧ ls < l0) then some (r, rot, ss, ls) else acc
  else acc

/-- One iteration of the free-rectangle loop of
`MaxRectsPacker._find_best_free_rect`. -/
def stepRect (pw ph : ℤ) (acc : Option (FreeRectangle × Bool × ℤ × ℤ))
    (r : FreeRectangle) : Option (FreeRectangle × Bool × ℤ × ℤ) :=
  tryRect (tryRect acc r pw ph false) r ph pw true

/-- `MaxRectsPacker._find_best_free_rect`. -/
def find_best_free_rect (pw ph : ℤ) (rects : List FreeRectangle) :
    Option (FreeRectangle × Bool) :=
  (rects.foldl (stepRect pw ph) none).map fun b => (b.1, b.2.1)

/-- The intersection test of `MaxRectsPacker._split_free_rect`:
`not (piece_x >= rect.x + rect.width or piece_x + piece_width <= rect.x or
piece_y >= rect.y + rect.height or piece_y + piece_height <= rect.y)`. -/
def overlapsPiece (px py pw ph : ℤ) (r : FreeRectangle) : Prop :=
  ¬(r.x + r.width ≤ px ∨ px + pw ≤ r.x ∨ r.y + r.height ≤ py ∨ py + ph ≤ r.y)

instance (px py pw ph : ℤ) (r : FreeRectangle) :
    Decidable (overlapsPiece px py pw ph r) := by
  unfold overlapsPiece; infer_instance

/-- The up-to-four replacement rectangles (left, right, bottom, top) generated
for one overlapping free rectangle in `MaxRectsPacker._split_free_rect`. -/
def splitOne (kerf px py pw ph : ℤ) (r : FreeRectangle) : List FreeRectangle :=
  (if r.x < px then [⟨r.x, r.y, px - r.x, r.height⟩] else []) ++
  (if px + pw + kerf < r.x + r.width then
    [⟨px + pw + kerf, r.y, r.x + r.width - (px + pw + kerf), r.height⟩] else []) ++
  (if r.y < py then [⟨r.x, r.y, r.width, py - r.y⟩] else []) ++
  (if py + ph + kerf < r.y + r.height then
    [⟨r.x, py + ph + kerf, r.width, r.y + r.height - (py + ph + kerf)⟩] else [])

/-- The `new_rects` list accumulated by the loop of
`MaxRectsPacker._split_free_rect` (rectangles that do not intersect the placed
piece contribute nothing and are not kept anywhere else). -/
def newRects (kerf px py pw ph : ℤ) (rects : List FreeRectangle) : List FreeRectangle :=
  rects.flatMap fun r =>
    if overlapsPiece px py pw ph r then splitOne kerf px py pw ph r else []

/-- The final pruning loop of `MaxRectsPacker._split_free_rect`: keep an entry
of `new_rects` when it is not contained in a *different entry* (Python compares
object identity, so positions are compared here) and has positive dimensions. -/
def prune (l : List FreeRectangle) : List FreeRectangle :=
  (l.enum.filter fun p =>
    decide (¬ ∃ q ∈ l.enum, q.1 ≠ p.1 ∧ is_contained_in p.2 q.2) &&
    (decide (0 < p.2.width) && decide (0 < p.2.height))).map Prod.snd

/-- `MaxRectsPacker._split_free_rect`: the new value of `free_rects`. -/
def split_free_rect (kerf px py pw ph : ℤ) (rects : List FreeRectangle) :
    List FreeRectangle :=
  prune (newRects kerf px py pw ph rects)

/-- The placement half of `MaxRectsPacker.pack_piece`. -/
def place (st : GState) (r : FreeRectangle) (rotated : Bool) (pw ph : ℤ) :
    GState × Option Placement :=
  let fw := if rotated then ph else pw
  let fh := if rotated then pw else ph
  let sheet := st.current_sheet
  let sheet' : GSheet :=
    { free_rects := split_free_rect st.saw_kerf r.x r.y fw fh sheet.free_rects,
      placed_pieces := sheet.placed_pieces ++ [⟨r.x, r.y, fw, fh, rotated⟩] }
  ({ st with current_sheet := sheet' },
   some ⟨st.sheets_prev.length, r.x, r.y, fw, fh, rotated⟩)

/-- `MaxRectsPacker.pack_piece`. -/
def pack_piece (st : GState) (pw ph : ℤ) : GState × Option Placement :=
  match find_best_free_rect pw ph st.current_sheet.free_rects with
  | some (r, rot) => place st r rot pw ph
  | none =>
    let st' := start_new_sheet st
    match find_best_free_rect pw ph st'.current_sheet.free_rects with
    | some (r, rot) => place st' r rot pw ph
    | none => (st', none)

/-- Pack a sequence of pieces, keeping only the final state. -/
def run (st : GState) : List (ℤ × ℤ) → GState
  | [] => st
  | p :: ps => run (pack_piece st p.1 p.2).1 ps

/-- Pack a sequence of pieces, returning the final state and the call results. -/
def runOut (st : GState) : List (ℤ × ℤ) → GState × List (Option Placement)
  | [] => (st, [])
  | p :: ps =>
    let r := pack_piece st p.1 p.2
    let rest := runOut r.1 ps
    (rest.1, r.2 :: rest.2)

end MaxRects

/-- `SkylinePacker.SkylineNode`. -/
structure SkylineNode where
  x : ℤ
  y : ℤ
  width : ℤ
deriving DecidableEq

/-- One sheet of the skyline packer. -/
structure SkySheet where
  skyline : List SkylineNode
  placed_pieces : List Placed
deriving DecidableEq

/-- State of `SkylinePacker`. -/
structure SkyState where
  sheet_width : ℤ
  sheet_height : ℤ
  saw_kerf : ℤ
  sheets_prev : List SkySheet
  current_sheet : SkySheet
deriving DecidableEq

/-- `len(self.sheets)` of the Python object. -/
def SkyState.sheetCount (st : SkyState) : ℕ := st.sheets_prev.length + 1

/-- All sheets of the packer, oldest first. -/
def SkyState.allSheets (st : SkyState) : List SkySheet :=
  st.sheets_prev ++ [st.current_sheet]

namespace Skyline

/-- The sheet built by `SkylinePacker._start_new_sheet`. -/
def freshSheet (W : ℤ) : SkySheet := ⟨[⟨0, 0, W⟩], []⟩

/-- `SkylinePacker.__init__`. -/
def init (W H kerf : ℤ) : SkyState := ⟨W, H, kerf, [], freshSheet W⟩

/-- `SkylinePacker._start_new_sheet`. -/
def start_new_sheet (st : SkyState) : SkyState :=
  { st with sheets_prev := st.sheets_prev ++ [st.current_sheet],
            current_sheet := freshSheet st.sheet_width }

/-- The `while width_left > 0 and i < len(skyline)` loop of
`SkylinePacker._calculate_fit`, walking the skyline suffix; `none` models the
`can_fit = False` early return. -/
def calcFitLoop (H height : ℤ) (y width_left : ℤ) :
    List SkylineNode → Option ℤ
  | [] => some y
  | n :: ns =>
    if 0 < width_left then
      let y' := pymax y n.y
      if H < y' + height then none
      else calcFitLoop H height y' (width_left - n.width) ns
    else some y

/-- `SkylinePacker._calculate_fit` at skyline index `index` for a piece of
dimensions `width × height`: `some y` when the piece can land at height `y`. -/
def calculate_fit (W H : ℤ) (sky : List SkylineNode) (index : ℕ)
    (width height : ℤ) : Option ℤ :=
  match sky.drop index with
  | [] => none
  | n :: ns =>
    if W < n.x + width then none
    else calcFitLoop H height 0 width (n :: ns)

/-- One pass of `SkylinePacker._find_best_position` over `enumerate(skyline)`
with piece dimensions `w × h` (already swapped when `rot` is true), carrying
the running best `(best_index, best_x, best_y, best_rotated)`. -/
def findPass (W H w h : ℤ) (rot : Bool) (sky : List SkylineNode)
    (acc0 : Option (ℕ × ℤ × ℤ × Bool)) : Option (ℕ × ℤ × ℤ × Bool) :=
  sky.enum.foldl (fun acc p =>
    match calculate_fit W H sky p.1 w h with
    | none => acc
    | some y =>
      match acc with
      | none => some (p.1, p.2.x, y, rot)
      | some (_, _, y0, _) => if y < y0 then some (p.1, p.2.x, y, rot) else acc) acc0

/-- `SkylinePacker._find_best_position` (normal pass, then rotated pass). -/
def find_best_position (W H : ℤ) (sky : List SkylineNode) (pw ph : ℤ) :
    Option (ℕ × ℤ × ℤ × Bool) :=
  findPass W H ph pw true sky (findPass W H pw ph false sky none)

/-- The first merge loop of `SkylinePacker._add_skyline_level`: the nodes after
the inserted one are clipped against the inserted node's right edge (`i` stays
at `index + 1` in the Python loop, so `prev` is always the new node); nodes
whose width is consumed are removed. -/
def clipLoop (right_edge : ℤ) : List SkylineNode → List SkylineNode
  | [] => []
  | n :: ns =>
    if n.x < right_edge then
      if n.x + n.width - right_edge ≤ 0 then clipLoop right_edge ns
      else ⟨right_edge, n.y, n.x + n.width - right_edge⟩ :: ns
    else n :: ns

/-- The body of the second merge loop of `SkylinePacker._add_skyline_level`:
`a` is the node under the cursor; when the next node has the same height it is
absorbed into `a` (the cursor stays), otherwise the cursor advances. -/
def mergeAux (a : SkylineNode) : List SkylineNode → List SkylineNode
  | [] => [a]
  | b :: rest =>
    if a.y = b.y then mergeAux ⟨a.x, a.y, a.width + b.width⟩ rest
    else a :: mergeAux b rest

/-- The second merge loop of `SkylinePacker._add_skyline_level`: adjacent nodes
at the same height are merged. -/
def mergeLoop : List SkylineNode → List SkylineNode
  | [] => []
  | a :: rest => mergeAux a rest

/-- `SkylinePacker._add_skyline_level`. -/
def add_skyline_level (kerf : ℤ) (sky : List SkylineNode) (index : ℕ)
    (x y width height : ℤ) : List SkylineNode :=
  let newNode : SkylineNode := ⟨x, y + height + kerf, width⟩
  mergeLoop (sky.take index ++ newNode :: clipLoop (newNode.x + newNode.width) (sky.drop index))

/-- The placement half of `SkylinePacker.pack_piece`. -/
def place (st : SkyState) (index : ℕ) (x y : ℤ) (rotated : Bool) (pw ph : ℤ) :
    SkyState × Option Placement :=
  let fw := if rotated then ph else pw
  let fh := if rotated then pw else ph
  let sheet := st.current_sheet
  let sheet' : SkySheet :=
    { skyline := add_skyline_level st.saw_kerf sheet.skyline index x y fw fh,
      placed_pieces := sheet.placed_pieces ++ [⟨x, y, fw, fh, rotated⟩] }
  ({ st with current_sheet := sheet' },
   some ⟨st.sheets_prev.length, x, y, fw, fh, rotated⟩)

/-- `SkylinePacker.pack_piece`. -/
def pack_piece (st : SkyState) (pw ph : ℤ) : SkyState × Option Placement :=
  match find_best_position st.sheet_width st.sheet_height st.current_sheet.skyline pw ph with
  | some (i, x, y, rot) => place st i x y rot pw ph
  | none =>
    let st' := start_new_sheet st
    match find_best_position st'.sheet_width st'.sheet_height st'.current_sheet.skyline pw ph with
    | some (i, x, y, rot) => place st' i x y rot pw ph
    | none => (st', none)

/-- Pack a sequence of pieces, keeping only the final state. -/
def run (st : SkyState) : List (ℤ × ℤ) → SkyState
  | [] => st
  | p :: ps => run (pack_piece st p.1 p.2).1 ps

/-- Pack a sequence of pieces, returning the final state and the call results. -/
def runOut (st : SkyState) : List (ℤ × ℤ) → SkyState × List (Option Placement)
  | [] => (st, [])
  | p :: ps =>
    let r := pack_piece st p.1 p.2
    let rest := runOut r.1 ps
    (rest.1, r.2 :: rest.2)

end Skyline

/-! ## Invariants and specification-side definitions -/

/-- Sheet invariant of the Guillotine packer: free rectangles are in bounds,
have positive dimensions, are pairwise disjoint, avoid every placed piece;
placed pieces are in bounds and pairwise disjoint. -/
def GSheet.inv (W H : ℤ) (s : GSheet) : Prop :=
  (∀ r ∈ s.free_rects, r.inBounds W H) ∧
  (∀ r ∈ s.free_rects, r.pos) ∧
  List.Pairwise FreeRectangle.disj s.free_rects ∧
  (∀ r ∈ s.free_rects, ∀ p ∈ s.placed_pieces, r.disj p.rect) ∧
  (∀ p ∈ s.placed_pieces, p.rect.inBounds W H) ∧
  List.Pairwise Placed.disjointWith s.placed_pieces

/-- Sheet invariant of the MaxRects packer (free rectangles may overlap each
other, so no pairwise condition is kept for them). -/
def GSheet.mrInv (W H : ℤ) (s : GSheet) : Prop :=
  (∀ r ∈ s.free_rects, r.inBounds W H) ∧
  (∀ r ∈ s.free_rects, ∀ p ∈ s.placed_pieces, r.disj p.rect) ∧
  (∀ p ∈ s.placed_pieces, p.rect.inBounds W H) ∧
  List.Pairwise Placed.disjointWith s.placed_pieces

/-- State invariant of the Guillotine packer. -/
def GState.gInv (st : GState) : Prop :=
  0 < st.sheet_width ∧ 0 < st.sheet_height ∧ 0 ≤ st.saw_kerf ∧
  ∀ s ∈ st.allSheets, GSheet.inv st.sheet_width st.sheet_height s

/-- State invariant of the MaxRects packer. -/
def GState.mrInv (st : GState) : Prop :=
  0 ≤ st.saw_kerf ∧ ∀ s ∈ st.allSheets, GSheet.mrInv st.sheet_width st.sheet_height s

/-- The skyline node list tiles the half-open interval `[start, stop)` from
left to right with nodes of positive width and no gaps or overlaps. -/
def covers (start stop : ℤ) : List SkylineNode → Prop
  | [] => start = stop
  | n :: ns => n.x = start ∧ 0 < n.width ∧ covers (start + n.width) stop ns

/-- No two adjacent skyline nodes have the same height. -/
def noAdjEq : List SkylineNode → Prop
  | [] => True
  | [_] => True
  | a :: b :: rest => a.y ≠ b.y ∧ noAdjEq (b :: rest)

/-- Sheet invariant of the Skyline packer: the node list tiles `[0, W)`, node
heights are non-negative, placed pieces are in bounds with positive dimensions
and pairwise disjoint, and every placed piece lies below the skyline over its
horizontal extent. -/
def SkySheet.inv (W H : ℤ) (s : SkySheet) : Prop :=
  covers 0 W s.skyline ∧
  noAdjEq s.skyline ∧
  (∀ n ∈ s.skyline, 0 ≤ n.y) ∧
  (∀ p ∈ s.placed_pieces, p.rect.inBounds W H) ∧
  (∀ p ∈ s.placed_pieces, 0 < p.width ∧ 0 < p.height) ∧
  (∀ p ∈ s.placed_pieces, ∀ n ∈ s.skyline,
    n.x < p.x + p.width → p.x < n.x + n.width → p.y + p.height ≤ n.y) ∧
  List.Pairwise Placed.disjointWith s.placed_pieces

/-- State invariant of the Skyline packer. -/
def SkyState.inv (st : SkyState) : Prop :=
  0 < st.sheet_width ∧ 0 ≤ st.saw_kerf ∧
  ∀ s ∈ st.allSheets, SkySheet.inv st.sheet_width st.sheet_height s

/-- Specification-side candidate list for the Guillotine search (used for the
refinement claim about the Best-Short-Side-Fit selection rule): all fitting
`(rectangle, orientation, score)` candidates in iteration order, the unrotated
orientation before the rotated one for the same rectangle. -/
def gCandidates (pw ph : ℤ) (rects : List FreeRectangle) :
    List (FreeRectangle × Bool × ℤ) :=
  rects.flatMap fun r =>
    (if pw ≤ r.width ∧ ph ≤ r.height then
      [(r, false, pymin (r.width - pw) (r.height - ph))] else []) ++
    (if ph ≤ r.width ∧ pw ≤ r.height then
      [(r, true, pymin (r.width - ph) (r.height - pw))] else [])

/-- Specification-side selection rule: the earliest candidate attaining the
minimal score (later candidates must be strictly smaller to displace it). -/
def firstMin : List (FreeRectangle × Bool × ℤ) → Option (FreeRectangle × Bool × ℤ)
  | [] => none
  | c :: cs =>
    match firstMin cs with
    | none => some c
    | some d => if d.2.2 < c.2.2 then some d else some c

/-- Fit of a `w × h` footprint in a free rectangle
(`rect.width >= w and rect.height >= h`). -/
def fitsIn (w h : ℤ) (r : FreeRectangle) : Prop := w ≤ r.width ∧ h ≤ r.height

/-- The accumulator of the Guillotine search loop only ever holds a fitting
member of the scanned list. -/
def gAccFit (pw ph : ℤ) (L : List FreeRectangle)
    (acc : Option (FreeRectangle × Bool × ℤ)) : Prop :=
  ∀ r rot s, acc = some (r, rot, s) →
    r ∈ L ∧ fitsIn (if rot then ph else pw) (if rot then pw else ph) r

/-- The accumulator of the MaxRects search loop only ever holds a fitting
member of the scanned list. -/
def mrAccFit (pw ph : ℤ) (L : List FreeRectangle)
    (acc : Option (FreeRectangle × Bool × ℤ × ℤ)) : Prop :=
  ∀ r rot s l, acc = some (r, rot, s, l) →
    r ∈ L ∧ fitsIn (if rot then ph else pw) (if rot then pw else ph) r

/-- The accumulator of the skyline search only ever holds an index with its
node's `x` and a landing height computed by `_calculate_fit` for the recorded
orientation. -/
def skyAccOK (W H pw ph : ℤ) (sky : List SkylineNode)
    (acc : Option (ℕ × ℤ × ℤ × Bool)) : Prop :=
  ∀ i x y rot, acc = some (i, x, y, rot) →
    ∃ n ns, sky.drop i = n :: ns ∧ x = n.x ∧
      Skyline.calculate_fit W H sky i (if rot then ph else pw)
        (if rot then pw else ph) = some y

/-- One update of the running best against a candidate `(rect, rot, score)`:
replace only on strict improvement. -/
def gUpdMin (acc : Option (FreeRectangle × Bool × ℤ))
    (c : FreeRectangle × Bool × ℤ) : Option (FreeRectangle × Bool × ℤ) :=
  match acc with
  | none => some c
  | some d => if c.2.2 < d.2.2 then some c else acc

/-- Combine a running best with the best of a candidate suffix (the suffix
winner displaces the running best only on strict improvement). -/
def gMergeAcc : Option (FreeRectangle × Bool × ℤ) → Option (FreeRectangle × Bool × ℤ) →
    Option (FreeRectangle × Bool × ℤ)
  | acc, none => acc
  | none, some d => some d
  | some a, some d => if d.2.2 < a.2.2 then some d else some a

/-! ## Sheet-count behaviour of a single call (C7) -/

theorem Guillotine.gPackSheets (st : GState) (pw ph : ℤ) :
    (Guillotine.pack_piece st pw ph).1.sheetCount ≤ st.sheetCount + 1 ∧
    ((Guillotine.pack_piece st pw ph).2 = none →
      (Guillotine.pack_piece st pw ph).1.sheets_prev = st.sheets_prev ++ [st.current_sheet] ∧
      (Guillotine.pack_piece st pw ph).1.current_sheet.placed_pieces = []) := by
  unfold pack_piece
  split
  · constructor
    · simp [place, GState.sheetCount]
    · intro h; simp [place] at h
  · dsimp only
    split
    · constructor
      · simp [place, start_new_sheet, GState.sheetCount]
      · intro h; simp [place] at h
    · constructor
      · simp [start_new_sheet, GState.sheetCount]
      · intro h; simp [start_new_sheet, freshSheet]

theorem MaxRects.mrPackSheets (st : GState) (pw ph : ℤ) :
    (MaxRects.pack_piece st pw ph).1.sheetCount ≤ st.sheetCount + 1 ∧
    ((MaxRects.pack_piece st pw ph).2 = none →
      (MaxRects.pack_piece st pw ph).1.sheets_prev = st.sheets_prev ++ [st.current_sheet] ∧
      (MaxRects.pack_piece st pw ph).1.current_sheet.placed_pieces = []) := by
  unfold pack_piece
  split
  · constructor
    · simp [place, GState.sheetCount]
    · intro h; simp [place] at h
  · dsimp only
    split
    · constructor
      · simp [place, start_new_sheet, GState.sheetCount]
      · intro h; simp [place] at h
    · constructor
      · simp [start_new_sheet, GState.sheetCount]
      · intro h; simp [start_new_sheet, freshSheet]

theorem Skyline.skyPackSheets (st : SkyState) (pw ph : ℤ) :
    (Skyline.pack_piece st pw ph).1.sheetCount ≤ st.sheetCount + 1 ∧
    ((Skyline.pack_piece st pw ph).2 = none →
      (Skyline.pack_piece st pw ph).1.sheets_prev = st.sheets_prev ++ [st.current_sheet] ∧
      (Skyline.pack_piece st pw ph).1.current_sheet.placed_pieces = []) := by
  unfold pack_piece
  split
  · constructor
    · simp [place, SkyState.sheetCount]
    · intro h; simp [place] at h
  · dsimp only
    split
    · constructor
      · simp [place, start_new_sheet, SkyState.sheetCount]
      · intro h; simp [place] at h
    · constructor
      · simp [start_new_sheet, SkyState.sheetCount]
      · intro h; simp [start_new_sheet, freshSheet]

/-- C7: a single `pack_piece` call opens at most one new sheet; when the call
returns the failure value, exactly one fresh sheet was opened (sheet count
increases by one), no placement is recorded for the piece (the fresh active
sheet is empty), and all previously recorded placements on all sheets are
unchanged (the old sheets, including the previously active one, are kept
verbatim).  This holds for all three strategies. -/
theorem claim_C7 (pw ph : ℤ) :
    (∀ st : GState,
      (Guillotine.pack_piece st pw ph).1.sheetCount ≤ st.sheetCount + 1 ∧
      ((Guillotine.pack_piece st pw ph).2 = none →
        (Guillotine.pack_piece st pw ph).1.sheetCount = st.sheetCount + 1 ∧
        (Guillotine.pack_piece st pw ph).1.sheets_prev = st.sheets_prev ++ [st.current_sheet] ∧
        (Guillotine.pack_piece st pw ph).1.current_sheet.placed_pieces = [])) ∧
    (∀ st : GState,
      (MaxRects.pack_piece st pw ph).1.sheetCount ≤ st.sheetCount + 1 ∧
      ((MaxRects.pack_piece st pw ph).2 = none →
        (MaxRects.pack_piece st pw ph).1.sheetCount = st.sheetCount + 1 ∧
        (MaxRects.pack_piece st pw ph).1.sheets_prev = st.sheets_prev ++ [st.current_sheet] ∧
        (MaxRects.pack_piece st pw ph).1.current_sheet.placed_pieces = [])) ∧
    (∀ st : SkyState,
      (Skyline.pack_piece st pw ph).1.sheetCount ≤ st.sheetCount + 1 ∧
      ((Skyline.pack_piece st pw ph).2 = none →
        (Skyline.pack_piece st pw ph).1.sheetCount = st.sheetCount + 1 ∧
        (Skyline.pack_piece st pw ph).1.sheets_prev = st.sheets_prev ++ [st.current_sheet] ∧
        (Skyline.pack_piece st pw ph).1.current_sheet.placed_pieces = [])) := by
  refine ⟨fun st => ⟨(Guillotine.gPackSheets st pw ph).1, fun h => ?_⟩,
          fun st => ⟨(MaxRects.mrPackSheets st pw ph).1, fun h => ?_⟩,
          fun st => ⟨(Skyline.skyPackSheets st pw ph).1, fun h => ?_⟩⟩
  · obtain ⟨h1, h2⟩ := (Guillotine.gPackSheets st pw ph).2 h
    exact ⟨by simp [GState.sheetCount, h1], h1, h2⟩
  · obtain ⟨h1, h2⟩ := (MaxRects.mrPackSheets st pw ph).2 h
    exact ⟨by simp [GState.sheetCount, h1], h1, h2⟩
  · obtain ⟨h1, h2⟩ := (Skyline.skyPackSheets st pw ph).2 h
    exact ⟨by simp [SkyState.sheetCount, h1], h1, h2⟩

theorem claim_C7_wit :
    (Guillotine.pack_piece (Guillotine.init 2 2 0) 3 3).2 = none ∧
    (Guillotine.pack_piece (Guillotine.init 2 2 0) 3 3).1.sheetCount =
      (Guillotine.init 2 2 0).sheetCount + 1 :=
  ⟨by decide, (((claim_C7 3 3).1 (Guillotine.init 2 2 0)).2 (by decide)).1⟩

/-- C10: packing is deterministic for every strategy — two packers constructed
with equal sheet width, sheet height and kerf, fed equal piece sequences,
return equal result lists call by call and end in equal states (`pack_piece`
is a pure function of the constructed state and the inputs in this embedding,
and the source consults no other data). -/
theorem claim_C10 (W H kerf W' H' kerf' : ℤ) (ps ps' : List (ℤ × ℤ))
    (hW : W = W') (hH : H = H') (hk : kerf = kerf') (hp : ps = ps') :
    Guillotine.runOut (Guillotine.init W H kerf) ps =
      Guillotine.runOut (Guillotine.init W' H' kerf') ps' ∧
    MaxRects.runOut (MaxRects.init W H kerf) ps =
      MaxRects.runOut (MaxRects.init W' H' kerf') ps' ∧
    Skyline.runOut (Skyline.init W H kerf) ps =
      Skyline.runOut (Skyline.init W' H' kerf') ps' := by
  subst hW; subst hH; subst hk; subst hp
  exact ⟨rfl, rfl, rfl⟩

theorem claim_C10_wit :
    Guillotine.runOut (Guillotine.init 10 10 0) [(3, 3)] =
      Guillotine.runOut (Guillotine.init 10 10 0) [(3, 3)] ∧
    MaxRects.runOut (MaxRects.init 10 10 0) [(3, 3)] =
      MaxRects.runOut (MaxRects.init 10 10 0) [(3, 3)] ∧
    Skyline.runOut (Skyline.init 10 10 0) [(3, 3)] =
      Skyline.runOut (Skyline.init 10 10 0) [(3, 3)] :=
  claim_C10 10 10 0 10 10 0 [(3, 3)] [(3, 3)] rfl rfl rfl rfl

/-- C1 evaluated on a failing input (sheet `100 × 100`, kerf `0`, pieces
`60 × 60` then `40 × 40`): after the first call the free set is
`[(60,0,40,100), (0,60,100,40)]`; the second piece is placed at `(60, 0)`, the
rectangle `(0,60,100,40)` lies entirely to one side of it (no footprint
overlap), yet the resulting free set is exactly `[(60,40,40,60)]` — the
untouched rectangle is gone although it is not contained in the sole
survivor.  This refutes the claimed frame property on the code as written. -/
theorem claim_C1_eval :
    ((⟨0, 60, 100, 40⟩ : FreeRectangle) ∈
      (MaxRects.run (MaxRects.init 100 100 0) [(60, 60)]).current_sheet.free_rects) ∧
    (MaxRects.pack_piece (MaxRects.run (MaxRects.init 100 100 0) [(60, 60)]) 40 40).2 =
      some ⟨0, 60, 0, 40, 40, false⟩ ∧
    (MaxRects.pack_piece (MaxRects.run (MaxRects.init 100 100 0) [(60, 60)]) 40 40).1.current_sheet.free_rects =
      [⟨60, 40, 40, 60⟩] ∧
    ¬ MaxRects.overlapsPiece 60 0 40 40 ⟨0, 60, 100, 40⟩ ∧
    ¬ MaxRects.is_contained_in ⟨0, 60, 100, 40⟩ ⟨60, 40, 40, 60⟩ := by
  decide

/-! ## The guillotine split (C6) -/

/-- C6: on a successful Guillotine placement the winning free rectangle is
removed and replaced by at most two rectangles, exactly as the spec describes:
with `lx`/`ly` the leftovers of the winning rectangle against the placed
(rotation-adjusted) dimensions, if `lx > ly` a right-side rectangle of full
height at `x` offset by the placed width plus kerf with width `lx - kerf`
(only when `lx > kerf`) and a top rectangle limited to the piece's own width
with height `ly - kerf` (only when `ly > kerf`); otherwise a full-width top
rectangle (only when `ly > kerf`) and a right rectangle limited to the piece's
own height (only when `lx > kerf`). -/
theorem claim_C6 (st : GState) (pw ph : ℤ) (r : FreeRectangle) (rot : Bool)
    (hfind : Guillotine.find_best_free_rect pw ph st.current_sheet.free_rects = some (r, rot)) :
    ((Guillotine.pack_piece st pw ph).1.current_sheet.free_rects =
      st.current_sheet.free_rects.erase r ++
        (let fw := if rot then ph else pw
         let fh := if rot then pw else ph
         let lx := r.width - fw
         let ly := r.height - fh
         let k := st.saw_kerf
         if ly < lx then
           (if k < lx then [⟨r.x + fw + k, r.y, lx - k, r.height⟩] else []) ++
           (if k < ly then [⟨r.x, r.y + fh + k, fw, ly - k⟩] else [])
         else
           (if k < ly then [⟨r.x, r.y + fh + k, r.width, ly - k⟩] else []) ++
           (if k < lx then [⟨r.x + fw + k, r.y, lx - k, fh⟩] else []))) ∧
    ∀ (k : ℤ) (rect : FreeRectangle) (px py w h : ℤ),
      (Guillotine.split_free_rect k rect px py w h).length ≤ 2 := by
  constructor
  · unfold Guillotine.pack_piece
    rw [hfind]
    rfl
  · intro k rect px py w h
    unfold Guillotine.split_free_rect
    dsimp only
    split <;> split_ifs <;> simp

theorem claim_C6_wit :
    (Guillotine.pack_piece (Guillotine.init 100 100 3) 60 70).1.current_sheet.free_rects =
      [⟨63, 0, 37, 100⟩, ⟨0, 73, 60, 27⟩] :=
  by simpa using (claim_C6 (Guillotine.init 100 100 3) 60 70 ⟨0, 0, 100, 100⟩ false (by decide)).1

/-! ## First placement on a fresh packer (C9) -/

theorem Guillotine.gStepSingle (pw ph : ℤ) (r : FreeRectangle)
    (h : (pw ≤ r.width ∧ ph ≤ r.height) ∨ (ph ≤ r.width ∧ pw ≤ r.height)) :
    ∃ rot s, Guillotine.stepRect pw ph none r = some (r, rot, s) := by
  unfold stepRect tryRect
  by_cases hN : pw ≤ r.width ∧ ph ≤ r.height
  · rw [if_pos hN]
    by_cases hR : ph ≤ r.width ∧ pw ≤ r.height
    · rw [if_pos hR]
      dsimp only
      split
      · exact ⟨true, _, rfl⟩
      · exact ⟨false, _, rfl⟩
    · rw [if_neg hR]
      exact ⟨false, _, rfl⟩
  · rw [if_neg hN, if_pos (h.resolve_left hN)]
    exact ⟨true, _, rfl⟩

theorem Guillotine.gFindSingle (pw ph : ℤ) (r : FreeRectangle)
    (h : (pw ≤ r.width ∧ ph ≤ r.height) ∨ (ph ≤ r.width ∧ pw ≤ r.height)) :
    ∃ rot, Guillotine.find_best_free_rect pw ph [r] = some (r, rot) := by
  obtain ⟨rot, s, hs⟩ := Guillotine.gStepSingle pw ph r h
  exact ⟨rot, by simp [find_best_free_rect, hs]⟩

theorem MaxRects.mrStepSingle (pw ph : ℤ) (r : FreeRectangle)
    (h : (pw ≤ r.width ∧ ph ≤ r.height) ∨ (ph ≤ r.width ∧ pw ≤ r.height)) :
    ∃ rot s l, MaxRects.stepRect pw ph none r = some (r, rot, s, l) := by
  unfold stepRect tryRect
  by_cases hN : pw ≤ r.width ∧ ph ≤ r.height
  · rw [if_pos hN]
    by_cases hR : ph ≤ r.width ∧ pw ≤ r.height
    · rw [if_pos hR]
      dsimp only
      split
      · exact ⟨true, _, _, rfl⟩
      · exact ⟨false, _, _, rfl⟩
    · rw [if_neg hR]
      exact ⟨false, _, _, rfl⟩
  · rw [if_neg hN, if_pos (h.resolve_left hN)]
    exact ⟨true, _, _, rfl⟩

theorem MaxRects.mrFindSingle (pw ph : ℤ) (r : FreeRectangle)
    (h : (pw ≤ r.width ∧ ph ≤ r.height) ∨ (ph ≤ r.width ∧ pw ≤ r.height)) :
    ∃ rot, MaxRects.find_best_free_rect pw ph [r] = some (r, rot) := by
  obtain ⟨rot, s, l, hs⟩ := MaxRects.mrStepSingle pw ph r h
  exact ⟨rot, by simp [find_best_free_rect, hs]⟩

theorem Skyline.calculate_fit_single (W H w h : ℤ) (h0 : 0 < w) (hw : w ≤ W)
    (hh : h ≤ H) : Skyline.calculate_fit W H [⟨0, 0, W⟩] 0 w h = some 0 := by
  unfold calculate_fit
  simp only [List.drop_zero]
  rw [if_neg (by omega : ¬ W < (0 : ℤ) + w)]
  unfold calcFitLoop
  rw [if_pos h0]
  have hm : pymax 0 (0 : ℤ) = 0 := rfl
  dsimp only
  rw [hm, if_neg (by omega : ¬ H < (0 : ℤ) + h)]
  rfl

theorem Skyline.calculate_fit_single_none (W H w h : ℤ) (h0 : 0 < w)
    (hnf : ¬(w ≤ W ∧ h ≤ H)) : Skyline.calculate_fit W H [⟨0, 0, W⟩] 0 w h = none := by
  unfold calculate_fit
  simp only [List.drop_zero]
  by_cases hw : w ≤ W
  · have hh : ¬ h ≤ H := fun hh => hnf ⟨hw, hh⟩
    rw [if_neg (by omega : ¬ W < (0 : ℤ) + w)]
    unfold calcFitLoop
    rw [if_pos h0]
    have hm : pymax 0 (0 : ℤ) = 0 := rfl
    dsimp only
    rw [hm, if_pos (by omega : H < (0 : ℤ) + h)]
  · rw [if_pos (by omega : W < (0 : ℤ) + w)]

theorem Skyline.skyFindSingle (W H pw ph : ℤ) (h0w : 0 < pw) (h0h : 0 < ph)
    (h : (pw ≤ W ∧ ph ≤ H) ∨ (ph ≤ W ∧ pw ≤ H)) :
    ∃ rot, Skyline.find_best_position W H [⟨0, 0, W⟩] pw ph = some (0, 0, 0, rot) := by
  unfold find_best_position findPass
  have henum : ([(⟨0, 0, W⟩ : SkylineNode)]).enum = [(0, ⟨0, 0, W⟩)] := rfl
  rw [henum]
  simp only [List.foldl]
  by_cases hN : pw ≤ W ∧ ph ≤ H
  · rw [Skyline.calculate_fit_single W H pw ph h0w hN.1 hN.2]
    dsimp only
    by_cases hR : ph ≤ W ∧ pw ≤ H
    · rw [Skyline.calculate_fit_single W H ph pw h0h hR.1 hR.2]
      dsimp only
      rw [if_neg (lt_irrefl (0 : ℤ))]
      exact ⟨false, rfl⟩
    · rw [Skyline.calculate_fit_single_none W H ph pw h0h hR]
      exact ⟨false, rfl⟩
  · have hR := h.resolve_left hN
    rw [Skyline.calculate_fit_single_none W H pw ph h0w hN]
    rw [Skyline.calculate_fit_single W H ph pw h0h hR.1 hR.2]
    exact ⟨true, rfl⟩

/-- C9: on a freshly constructed packer (positive sheet dimensions,
non-negative kerf), the first `pack_piece` call for a piece with positive
dimensions that fits the empty sheet in some orientation returns
`sheet_index = 0` and position `x = 0`, `y = 0`, for all three strategies. -/
theorem claim_C9 (W H kerf pw ph : ℤ) (hW : 0 < W) (hH : 0 < H) (hk : 0 ≤ kerf)
    (h0w : 0 < pw) (h0h : 0 < ph)
    (hfit : (pw ≤ W ∧ ph ≤ H) ∨ (ph ≤ W ∧ pw ≤ H)) :
    (∃ pl : Placement, (Guillotine.pack_piece (Guillotine.init W H kerf) pw ph).2 = some pl ∧
      pl.sheet_index = 0 ∧ pl.x = 0 ∧ pl.y = 0) ∧
    (∃ pl : Placement, (MaxRects.pack_piece (MaxRects.init W H kerf) pw ph).2 = some pl ∧
      pl.sheet_index = 0 ∧ pl.x = 0 ∧ pl.y = 0) ∧
    (∃ pl : Placement, (Skyline.pack_piece (Skyline.init W H kerf) pw ph).2 = some pl ∧
      pl.sheet_index = 0 ∧ pl.x = 0 ∧ pl.y = 0) := by
  refine ⟨?_, ?_, ?_⟩
  · obtain ⟨rot, hf⟩ := Guillotine.gFindSingle pw ph ⟨0, 0, W, H⟩ hfit
    refine ⟨⟨0, 0, 0, if rot then ph else pw, if rot then pw else ph, rot⟩, ?_, rfl, rfl, rfl⟩
    unfold Guillotine.pack_piece
    rw [show (Guillotine.init W H kerf).current_sheet.free_rects = [⟨0, 0, W, H⟩] from rfl, hf]
    rfl
  · obtain ⟨rot, hf⟩ := MaxRects.mrFindSingle pw ph ⟨0, 0, W, H⟩ hfit
    refine ⟨⟨0, 0, 0, if rot then ph else pw, if rot then pw else ph, rot⟩, ?_, rfl, rfl, rfl⟩
    unfold MaxRects.pack_piece
    rw [show (MaxRects.init W H kerf).current_sheet.free_rects = [⟨0, 0, W, H⟩] from rfl, hf]
    rfl
  · obtain ⟨rot, hf⟩ := Skyline.skyFindSingle W H pw ph h0w h0h hfit
    refine ⟨⟨0, 0, 0, if rot then ph else pw, if rot then pw else ph, rot⟩, ?_, rfl, rfl, rfl⟩
    unfold Skyline.pack_piece
    rw [show (Skyline.init W H kerf).current_sheet.skyline = [⟨0, 0, W⟩] from rfl,
        show (Skyline.init W H kerf).sheet_width = W from rfl,
        show (Skyline.init W H kerf).sheet_height = H from rfl, hf]
    rfl

theorem claim_C9_wit :
    0 < (1220 : ℤ) ∧
    ∃ pl : Placement,
      (Skyline.pack_piece (Skyline.init 1220 2440 3) 600 600).2 = some pl ∧
      pl.sheet_index = 0 ∧ pl.x = 0 ∧ pl.y = 0 :=
  ⟨by decide,
   (claim_C9 1220 2440 3 600 600 (by decide) (by decide) (by decide) (by decide)
     (by decide) (Or.inl (by decide))).2.2⟩

/-! ## Geometry lemmas -/

theorem FreeRectangle.disj_symm {a b : FreeRectangle} (h : a.disj b) : b.disj a := by
  unfold FreeRectangle.disj at *
  omega

theorem FreeRectangle.disj_of_subrect_left {a a' b : FreeRectangle}
    (hsub : a.subrect a') (h : FreeRectangle.disj a' b) : a.disj b := by
  unfold FreeRectangle.subrect at hsub
  unfold FreeRectangle.disj at *
  omega

theorem FreeRectangle.disj_of_subrect_right {a b b' : FreeRectangle}
    (hsub : b.subrect b') (h : a.disj b') : a.disj b := by
  unfold FreeRectangle.subrect at hsub
  unfold FreeRectangle.disj at *
  omega

theorem FreeRectangle.inBounds_of_subrect {a b : FreeRectangle} (W H : ℤ)
    (hsub : a.subrect b) (h : b.inBounds W H) : a.inBounds W H := by
  unfold FreeRectangle.subrect at hsub
  unfold FreeRectangle.inBounds at *
  omega

theorem pairwise_disj_nodup (l : List FreeRectangle)
    (hp : List.Pairwise FreeRectangle.disj l) (hpos : ∀ r ∈ l, r.pos) :
    l.Nodup := by
  induction l with
  | nil => simp
  | cons a l ih =>
    obtain ⟨h1, h2⟩ := List.pairwise_cons.mp hp
    refine List.nodup_cons.mpr ⟨fun hmem => ?_, ih h2 (fun r hr => hpos r (by simp [hr]))⟩
    have hd := h1 a hmem
    have hp := hpos a (by simp)
    unfold FreeRectangle.disj at hd
    unfold FreeRectangle.pos at hp
    omega

/-! ## Soundness of the Guillotine search -/

theorem Guillotine.gTryCases (acc : Option (FreeRectangle × Bool × ℤ))
    (r : FreeRectangle) (w h : ℤ) (rot : Bool) :
    Guillotine.tryRect acc r w h rot = acc ∨
      (Guillotine.tryRect acc r w h rot =
        some (r, rot, pymin (r.width - w) (r.height - h)) ∧ w ≤ r.width ∧ h ≤ r.height) := by
  unfold tryRect
  by_cases hc : w ≤ r.width ∧ h ≤ r.height
  · rw [if_pos hc]
    rcases acc with _ | ⟨r0, rot0, s0⟩
    · exact Or.inr ⟨rfl, hc.1, hc.2⟩
    · dsimp only
      split
      · exact Or.inr ⟨rfl, hc.1, hc.2⟩
      · exact Or.inl rfl
  · rw [if_neg hc]
    exact Or.inl rfl

theorem Guillotine.gFoldlFit (pw ph : ℤ) (L : List FreeRectangle) :
    ∀ (l : List FreeRectangle) (acc : Option (FreeRectangle × Bool × ℤ)),
      (∀ r ∈ l, r ∈ L) → gAccFit pw ph L acc →
      gAccFit pw ph L (l.foldl (Guillotine.stepRect pw ph) acc) := by
  intro l
  induction l with
  | nil => intro acc _ hacc; exact hacc
  | cons r l ih =>
    intro acc hsub hacc
    rw [List.foldl_cons]
    refine ih _ (fun x hx => hsub x (List.mem_cons_of_mem _ hx)) ?_
    have hrL := hsub r (List.mem_cons_self r l)
    intro r' rot' s' heq
    unfold stepRect at heq
    rcases Guillotine.gTryCases (Guillotine.tryRect acc r pw ph false) r ph pw true with
      h2 | ⟨h2, hw2, hh2⟩
    · rw [h2] at heq
      rcases Guillotine.gTryCases acc r pw ph false with h1 | ⟨h1, hw1, hh1⟩
      · rw [h1] at heq
        exact hacc r' rot' s' heq
      · rw [h1] at heq
        simp only [Option.some.injEq, Prod.mk.injEq] at heq
        obtain ⟨he1, he2, he3⟩ := heq
        subst he1; subst he2
        exact ⟨hrL, hw1, hh1⟩
    · rw [h2] at heq
      simp only [Option.some.injEq, Prod.mk.injEq] at heq
      obtain ⟨he1, he2, he3⟩ := heq
      subst he1; subst he2
      exact ⟨hrL, hw2, hh2⟩

theorem Guillotine.gFindSound (pw ph : ℤ) (L : List FreeRectangle)
    (r : FreeRectangle) (rot : Bool)
    (h : Guillotine.find_best_free_rect pw ph L = some (r, rot)) :
    r ∈ L ∧ fitsIn (if rot then ph else pw) (if rot then pw else ph) r := by
  unfold find_best_free_rect at h
  cases hf : L.foldl (Guillotine.stepRect pw ph) none with
  | none => rw [hf] at h; simp at h
  | some b =>
    rw [hf] at h
    obtain ⟨br, brot, bs⟩ := b
    simp only [Option.map_some', Option.some.injEq, Prod.mk.injEq] at h
    obtain ⟨h1, h2⟩ := h
    have := Guillotine.gFoldlFit pw ph L L none (fun _ hx => hx)
      (fun _ _ _ hx => by cases hx) br brot bs hf
    rw [h1, h2] at this
    exact this

/-! ## Properties of the guillotine split -/

theorem Guillotine.split_mem (kerf : ℤ) (r : FreeRectangle) (fw fh : ℤ)
    (hk : 0 ≤ kerf) (h0w : 0 < fw) (h0h : 0 < fh) (hw : fw ≤ r.width)
    (hh : fh ≤ r.height) :
    ∀ s ∈ Guillotine.split_free_rect kerf r r.x r.y fw fh,
      s.subrect r ∧ s.disj ⟨r.x, r.y, fw, fh⟩ ∧ s.pos := by
  intro s hs
  unfold Guillotine.split_free_rect at hs
  dsimp only at hs
  by_cases hbr : r.height - fh < r.width - fw
  · rw [if_pos hbr, List.mem_append] at hs
    rcases hs with hs | hs
    · by_cases hg : kerf < r.width - fw
      · rw [if_pos hg, List.mem_singleton] at hs
        subst hs
        refine ⟨?_, ?_, ?_⟩ <;>
          simp only [FreeRectangle.subrect, FreeRectangle.disj, FreeRectangle.pos] <;>
          omega
      · rw [if_neg hg] at hs
        exact absurd hs (List.not_mem_nil s)
    · by_cases hg : kerf < r.height - fh
      · rw [if_pos hg, List.mem_singleton] at hs
        subst hs
        refine ⟨?_, ?_, ?_⟩ <;>
          simp only [FreeRectangle.subrect, FreeRectangle.disj, FreeRectangle.pos] <;>
          omega
      · rw [if_neg hg] at hs
        exact absurd hs (List.not_mem_nil s)
  · rw [if_neg hbr, List.mem_append] at hs
    rcases hs with hs | hs
    · by_cases hg : kerf < r.height - fh
      · rw [if_pos hg, List.mem_singleton] at hs
        subst hs
        refine ⟨?_, ?_, ?_⟩ <;>
          simp only [FreeRectangle.subrect, FreeRectangle.disj, FreeRectangle.pos] <;>
          omega
      · rw [if_neg hg] at hs
        exact absurd hs (List.not_mem_nil s)
    · by_cases hg : kerf < r.width - fw
      · rw [if_pos hg, List.mem_singleton] at hs
        subst hs
        refine ⟨?_, ?_, ?_⟩ <;>
          simp only [FreeRectangle.subrect, FreeRectangle.disj, FreeRectangle.pos] <;>
          omega
      · rw [if_neg hg] at hs
        exact absurd hs (List.not_mem_nil s)

theorem Guillotine.split_pairwise (kerf : ℤ) (r : FreeRectangle) (fw fh : ℤ)
    (hk : 0 ≤ kerf) :
    List.Pairwise FreeRectangle.disj (Guillotine.split_free_rect kerf r r.x r.y fw fh) := by
  have hAB1 : FreeRectangle.disj ⟨r.x + fw + kerf, r.y, r.width - fw - kerf, r.height⟩
      ⟨r.x, r.y + fh + kerf, fw, r.height - fh - kerf⟩ := by
    simp only [FreeRectangle.disj]
    omega
  have hAB2 : FreeRectangle.disj ⟨r.x, r.y + fh + kerf, r.width, r.height - fh - kerf⟩
      ⟨r.x + fw + kerf, r.y, r.width - fw - kerf, fh⟩ := by
    simp only [FreeRectangle.disj]
    omega
  unfold Guillotine.split_free_rect
  dsimp only
  split <;> split_ifs <;> simp_all [List.pairwise_cons]

/-! ## Guillotine invariant preservation -/

theorem GSheet.invPlaceG (W H kerf : ℤ) (s : GSheet) (r : FreeRectangle)
    (fw fh : ℤ) (rot : Bool) (hk : 0 ≤ kerf)
    (hinv : s.inv W H) (hmem : r ∈ s.free_rects)
    (h0w : 0 < fw) (h0h : 0 < fh) (hw : fw ≤ r.width) (hh : fh ≤ r.height) :
    GSheet.inv W H ⟨s.free_rects.erase r ++ Guillotine.split_free_rect kerf r r.x r.y fw fh,
      s.placed_pieces ++ [⟨r.x, r.y, fw, fh, rot⟩]⟩ ∧
    FreeRectangle.inBounds W H ⟨r.x, r.y, fw, fh⟩ := by
  obtain ⟨hFb, hFpos, hFpw, hFP, hPb, hPpw⟩ := hinv
  have hrb := hFb r hmem
  have hnodup : s.free_rects.Nodup := pairwise_disj_nodup _ hFpw hFpos
  have hpc_sub : FreeRectangle.subrect ⟨r.x, r.y, fw, fh⟩ r := by
    simp only [FreeRectangle.subrect]
    omega
  have hpcb : FreeRectangle.inBounds W H ⟨r.x, r.y, fw, fh⟩ :=
    FreeRectangle.inBounds_of_subrect W H hpc_sub hrb
  have hsplit := Guillotine.split_mem kerf r fw fh hk h0w h0h hw hh
  have herase : ∀ t ∈ s.free_rects.erase r, t ≠ r ∧ t ∈ s.free_rects :=
    fun t ht => hnodup.mem_erase_iff.mp ht
  have hdsym : Symmetric FreeRectangle.disj := fun a b hab => FreeRectangle.disj_symm hab
  have herase_disj : ∀ t ∈ s.free_rects.erase r, t.disj r := by
    intro t ht
    obtain ⟨hne, hmem'⟩ := herase t ht
    exact hFpw.forall hdsym hmem' hmem hne
  have hnewrect : Placed.rect ⟨r.x, r.y, fw, fh, rot⟩ = ⟨r.x, r.y, fw, fh⟩ := rfl
  refine ⟨⟨?_, ?_, ?_, ?_, ?_, ?_⟩, hpcb⟩
  · intro t ht
    rcases List.mem_append.mp ht with ht | ht
    · exact hFb t (herase t ht).2
    · exact FreeRectangle.inBounds_of_subrect W H (hsplit t ht).1 hrb
  · intro t ht
    rcases List.mem_append.mp ht with ht | ht
    · exact hFpos t (herase t ht).2
    · exact (hsplit t ht).2.2
  · refine List.pairwise_append.mpr
      ⟨List.Pairwise.sublist (List.erase_sublist r s.free_rects) hFpw,
       Guillotine.split_pairwise kerf r fw fh hk, ?_⟩
    intro t ht u hu
    exact FreeRectangle.disj_of_subrect_right (hsplit u hu).1 (herase_disj t ht)
  · intro t ht p hp
    rcases List.mem_append.mp ht with ht | ht
    · rcases List.mem_append.mp hp with hp | hp
      · exact hFP t (herase t ht).2 p hp
      · rw [List.mem_singleton] at hp
        subst hp
        rw [hnewrect]
        exact FreeRectangle.disj_of_subrect_right hpc_sub (herase_disj t ht)
    · rcases List.mem_append.mp hp with hp | hp
      · exact FreeRectangle.disj_of_subrect_left (hsplit t ht).1 (hFP r hmem p hp)
      · rw [List.mem_singleton] at hp
        subst hp
        rw [hnewrect]
        exact (hsplit t ht).2.1
  · intro p hp
    rcases List.mem_append.mp hp with hp | hp
    · exact hPb p hp
    · rw [List.mem_singleton] at hp
      subst hp
      rw [hnewrect]
      exact hpcb
  · refine List.pairwise_append.mpr ⟨hPpw, by simp, ?_⟩
    intro p hp q hq
    rw [List.mem_singleton] at hq
    subst hq
    unfold Placed.disjointWith
    rw [hnewrect]
    exact FreeRectangle.disj_of_subrect_right hpc_sub
      (FreeRectangle.disj_symm (hFP r hmem p hp))

theorem GSheet.invFreshG (W H : ℤ) (hW : 0 < W) (hH : 0 < H) :
    GSheet.inv W H ⟨[⟨0, 0, W, H⟩], []⟩ := by
  refine ⟨?_, ?_, ?_, ?_, ?_, ?_⟩ <;>
    simp [FreeRectangle.inBounds, FreeRectangle.pos, hW, hH]

theorem Guillotine.gNewSheetInv (st : GState) (h : st.gInv) :
    (Guillotine.start_new_sheet st).gInv := by
  obtain ⟨hW, hH, hk, hs⟩ := h
  refine ⟨hW, hH, hk, ?_⟩
  intro s hsm
  simp only [start_new_sheet, GState.allSheets] at hsm
  rcases List.mem_append.mp hsm with hsm | hsm
  · exact hs s (by simpa [GState.allSheets] using hsm)
  · rw [List.mem_singleton] at hsm
    subst hsm
    exact GSheet.invFreshG _ _ hW hH

theorem Guillotine.gPlaceInv (st : GState) (r : FreeRectangle) (rot : Bool)
    (pw ph : ℤ) (hinv : st.gInv) (h0w : 0 < pw) (h0h : 0 < ph)
    (hmem : r ∈ st.current_sheet.free_rects)
    (hfit : fitsIn (if rot then ph else pw) (if rot then pw else ph) r) :
    (Guillotine.place st r rot pw ph).1.gInv ∧
    ∀ pl, (Guillotine.place st r rot pw ph).2 = some pl →
      FreeRectangle.inBounds st.sheet_width st.sheet_height ⟨pl.x, pl.y, pl.width, pl.height⟩ := by
  obtain ⟨hW, hH, hk, hs⟩ := hinv
  have h0fw : 0 < (if rot then ph else pw) := by cases rot <;> simp [h0w, h0h]
  have h0fh : 0 < (if rot then pw else ph) := by cases rot <;> simp [h0w, h0h]
  have hcur := hs st.current_sheet (by simp [GState.allSheets])
  have key := GSheet.invPlaceG st.sheet_width st.sheet_height st.saw_kerf
    st.current_sheet r _ _ rot hk hcur hmem h0fw h0fh hfit.1 hfit.2
  constructor
  · refine ⟨hW, hH, hk, ?_⟩
    intro s hsm
    simp only [Guillotine.place, GState.allSheets] at hsm
    rcases List.mem_append.mp hsm with hsm | hsm
    · exact hs s (by simp [GState.allSheets, hsm])
    · rw [List.mem_singleton] at hsm
      subst hsm
      exact key.1
  · intro pl hpl
    simp only [Guillotine.place, Option.some.injEq] at hpl
    subst hpl
    exact key.2

theorem Guillotine.gPackInv (st : GState) (pw ph : ℤ) (hinv : st.gInv)
    (h0w : 0 < pw) (h0h : 0 < ph) :
    (Guillotine.pack_piece st pw ph).1.gInv ∧
    ∀ pl, (Guillotine.pack_piece st pw ph).2 = some pl →
      FreeRectangle.inBounds st.sheet_width st.sheet_height ⟨pl.x, pl.y, pl.width, pl.height⟩ := by
  unfold pack_piece
  cases hfind : find_best_free_rect pw ph st.current_sheet.free_rects with
  | some b =>
    obtain ⟨r, rot⟩ := b
    obtain ⟨hmem, hfit⟩ := gFindSound pw ph _ r rot hfind
    exact gPlaceInv st r rot pw ph ⟨hinv.1, hinv.2.1, hinv.2.2.1, hinv.2.2.2⟩ h0w h0h hmem hfit
  | none =>
    have hinv' := gNewSheetInv st hinv
    dsimp only
    cases hfind2 : find_best_free_rect pw ph (start_new_sheet st).current_sheet.free_rects with
    | some b =>
      obtain ⟨r, rot⟩ := b
      obtain ⟨hmem, hfit⟩ := gFindSound pw ph _ r rot hfind2
      exact gPlaceInv (start_new_sheet st) r rot pw ph hinv' h0w h0h hmem hfit
    | none =>
      exact ⟨hinv', by intro pl h; cases h⟩

theorem Guillotine.gRunInv (ps : List (ℤ × ℤ)) : ∀ st : GState, st.gInv →
    (∀ p ∈ ps, 0 < p.1 ∧ 0 < p.2) → (Guillotine.run st ps).gInv := by
  induction ps with
  | nil => intro st h _; exact h
  | cons p ps ih =>
    intro st h hp
    exact ih _ (gPackInv st p.1 p.2 h (hp p (by simp)).1 (hp p (by simp)).2).1
      (fun q hq => hp q (by simp [hq]))

theorem Guillotine.gInitInv (W H kerf : ℤ) (hW : 0 < W) (hH : 0 < H)
    (hk : 0 ≤ kerf) : (Guillotine.init W H kerf).gInv := by
  refine ⟨hW, hH, hk, ?_⟩
  intro s hs
  simp only [GState.allSheets, init, List.nil_append, List.mem_singleton] at hs
  subst hs
  exact GSheet.invFreshG W H hW hH

theorem Guillotine.gPackNoneIff (st : GState) (pw ph : ℤ) (hinv : st.gInv) :
    ((Guillotine.pack_piece st pw ph).2 = none ↔
      ¬((pw ≤ st.sheet_width ∧ ph ≤ st.sheet_height) ∨
        (ph ≤ st.sheet_width ∧ pw ≤ st.sheet_height))) := by
  obtain ⟨hW, hH, hk, hs⟩ := hinv
  have hcur := hs st.current_sheet (by simp [GState.allSheets])
  unfold pack_piece
  cases hfind : find_best_free_rect pw ph st.current_sheet.free_rects with
  | some b =>
    obtain ⟨r, rot⟩ := b
    obtain ⟨hmem, hfit⟩ := gFindSound pw ph _ r rot hfind
    have hrb := hcur.1 r hmem
    constructor
    · intro h
      exact absurd h (by simp [place])
    · intro h
      exfalso
      apply h
      unfold FreeRectangle.inBounds at hrb
      have h1 := hfit.1
      have h2 := hfit.2
      cases rot
      · simp at h1 h2
        exact Or.inl ⟨by omega, by omega⟩
      · simp at h1 h2
        exact Or.inr ⟨by omega, by omega⟩
  | none =>
    dsimp only
    cases hfind2 : find_best_free_rect pw ph (start_new_sheet st).current_sheet.free_rects with
    | some b =>
      obtain ⟨r, rot⟩ := b
      obtain ⟨hmem, hfit⟩ := gFindSound pw ph _ r rot hfind2
      have hr : r = ⟨0, 0, st.sheet_width, st.sheet_height⟩ := by
        simpa [start_new_sheet, freshSheet] using hmem
      subst hr
      constructor
      · intro h
        exact absurd h (by simp [place])
      · intro h
        exfalso
        apply h
        have h1 := hfit.1
        have h2 := hfit.2
        cases rot
        · simp at h1 h2
          exact Or.inl ⟨h1, h2⟩
        · simp at h1 h2
          exact Or.inr ⟨h1, h2⟩
    | none =>
      constructor
      · intro _ hfit'
        obtain ⟨rot, hsome⟩ := Guillotine.gFindSingle pw ph
          ⟨0, 0, st.sheet_width, st.sheet_height⟩ (by simpa using hfit')
        rw [show (start_new_sheet st).current_sheet.free_rects =
          [⟨0, 0, st.sheet_width, st.sheet_height⟩] from rfl] at hfind2
        rw [hsome] at hfind2
        cases hfind2
      · intro _
        rfl

/-! ## Soundness of the MaxRects search -/

theorem MaxRects.mrTryCases (acc : Option (FreeRectangle × Bool × ℤ × ℤ))
    (r : FreeRectangle) (w h : ℤ) (rot : Bool) :
    MaxRects.tryRect acc r w h rot = acc ∨
      (MaxRects.tryRect acc r w h rot =
        some (r, rot, pymin (r.width - w) (r.height - h),
          pymax (r.width - w) (r.height - h)) ∧ w ≤ r.width ∧ h ≤ r.height) := by
  unfold tryRect
  by_cases hc : w ≤ r.width ∧ h ≤ r.height
  · rw [if_pos hc]
    rcases acc with _ | ⟨r0, rot0, s0, l0⟩
    · exact Or.inr ⟨rfl, hc.1, hc.2⟩
    · dsimp only
      split
      · exact Or.inr ⟨rfl, hc.1, hc.2⟩
      · exact Or.inl rfl
  · rw [if_neg hc]
    exact Or.inl rfl

theorem MaxRects.mrFoldlFit (pw ph : ℤ) (L : List FreeRectangle) :
    ∀ (l : List FreeRectangle) (acc : Option (FreeRectangle × Bool × ℤ × ℤ)),
      (∀ r ∈ l, r ∈ L) → mrAccFit pw ph L acc →
      mrAccFit pw ph L (l.foldl (MaxRects.stepRect pw ph) acc) := by
  intro l
  induction l with
  | nil => intro acc _ hacc; exact hacc
  | cons r l ih =>
    intro acc hsub hacc
    rw [List.foldl_cons]
    refine ih _ (fun x hx => hsub x (List.mem_cons_of_mem _ hx)) ?_
    have hrL := hsub r (List.mem_cons_self r l)
    intro r' rot' s' l' heq
    unfold stepRect at heq
    rcases MaxRects.mrTryCases (MaxRects.tryRect acc r pw ph false) r ph pw true with
      h2 | ⟨h2, hw2, hh2⟩
    · rw [h2] at heq
      rcases MaxRects.mrTryCases acc r pw ph false with h1 | ⟨h1, hw1, hh1⟩
      · rw [h1] at heq
        exact hacc r' rot' s' l' heq
      · rw [h1] at heq
        simp only [Option.some.injEq, Prod.mk.injEq] at heq
        obtain ⟨he1, he2, he3, he4⟩ := heq
        subst he1; subst he2
        exact ⟨hrL, hw1, hh1⟩
    · rw [h2] at heq
      simp only [Option.some.injEq, Prod.mk.injEq] at heq
      obtain ⟨he1, he2, he3, he4⟩ := heq
      subst he1; subst he2
      exact ⟨hrL, hw2, hh2⟩

theorem MaxRects.mrFindSound (pw ph : ℤ) (L : List FreeRectangle)
    (r : FreeRectangle) (rot : Bool)
    (h : MaxRects.find_best_free_rect pw ph L = some (r, rot)) :
    r ∈ L ∧ fitsIn (if rot then ph else pw) (if rot then pw else ph) r := by
  unfold find_best_free_rect at h
  cases hf : L.foldl (MaxRects.stepRect pw ph) none with
  | none => rw [hf] at h; simp at h
  | some b =>
    rw [hf] at h
    obtain ⟨br, brot, bs, bl⟩ := b
    simp only [Option.map_some', Option.some.injEq, Prod.mk.injEq] at h
    obtain ⟨h1, h2⟩ := h
    have := MaxRects.mrFoldlFit pw ph L L none (fun _ hx => hx)
      (fun _ _ _ _ hx => by cases hx) br brot bs bl hf
    rw [h1, h2] at this
    exact this

/-! ## Properties of the MaxRects split -/

theorem MaxRects.splitOne_mem (kerf px py pw ph : ℤ) (r : FreeRectangle)
    (hk : 0 ≤ kerf) (hov : MaxRects.overlapsPiece px py pw ph r) :
    ∀ t ∈ MaxRects.splitOne kerf px py pw ph r,
      t.subrect r ∧ t.disj ⟨px, py, pw, ph⟩ := by
  unfold overlapsPiece at hov
  intro t ht
  unfold splitOne at ht
  simp only [List.mem_append] at ht
  rcases ht with ((ht | ht) | ht) | ht
  · by_cases hc : r.x < px
    · rw [if_pos hc, List.mem_singleton] at ht
      subst ht
      constructor <;>
        simp only [FreeRectangle.subrect, FreeRectangle.disj] <;> omega
    · rw [if_neg hc] at ht
      exact absurd ht (List.not_mem_nil t)
  · by_cases hc : px + pw + kerf < r.x + r.width
    · rw [if_pos hc, List.mem_singleton] at ht
      subst ht
      constructor <;>
        simp only [FreeRectangle.subrect, FreeRectangle.disj] <;> omega
    · rw [if_neg hc] at ht
      exact absurd ht (List.not_mem_nil t)
  · by_cases hc : r.y < py
    · rw [if_pos hc, List.mem_singleton] at ht
      subst ht
      constructor <;>
        simp only [FreeRectangle.subrect, FreeRectangle.disj] <;> omega
    · rw [if_neg hc] at ht
      exact absurd ht (List.not_mem_nil t)
  · by_cases hc : py + ph + kerf < r.y + r.height
    · rw [if_pos hc, List.mem_singleton] at ht
      subst ht
      constructor <;>
        simp only [FreeRectangle.subrect, FreeRectangle.disj] <;> omega
    · rw [if_neg hc] at ht
      exact absurd ht (List.not_mem_nil t)

theorem MaxRects.newRects_mem (kerf px py pw ph : ℤ) (L : List FreeRectangle)
    (hk : 0 ≤ kerf) :
    ∀ t ∈ MaxRects.newRects kerf px py pw ph L,
      ∃ r ∈ L, t.subrect r ∧ t.disj ⟨px, py, pw, ph⟩ := by
  intro t ht
  unfold newRects at ht
  rw [List.mem_flatMap] at ht
  obtain ⟨r, hrL, ht⟩ := ht
  by_cases hov : MaxRects.overlapsPiece px py pw ph r
  · rw [if_pos hov] at ht
    exact ⟨r, hrL, MaxRects.splitOne_mem kerf px py pw ph r hk hov t ht⟩
  · rw [if_neg hov] at ht
    exact absurd ht (List.not_mem_nil t)

theorem MaxRects.prune_subset (l : List FreeRectangle) :
    ∀ t ∈ MaxRects.prune l, t ∈ l := by
  intro t ht
  unfold prune at ht
  rw [List.mem_map] at ht
  obtain ⟨p, hp, hpt⟩ := ht
  have hp' := List.mem_of_mem_filter hp
  rw [List.mem_enum_iff_getElem?] at hp'
  subst hpt
  exact List.getElem?_mem hp'

/-! ## MaxRects invariant preservation -/

theorem GSheet.mrInv_fresh (W H : ℤ) : GSheet.mrInv W H ⟨[⟨0, 0, W, H⟩], []⟩ := by
  refine ⟨?_, ?_, ?_, ?_⟩ <;> simp [FreeRectangle.inBounds]

theorem GSheet.mrInv_place (W H kerf : ℤ) (s : GSheet) (r : FreeRectangle)
    (fw fh : ℤ) (rot : Bool) (hk : 0 ≤ kerf)
    (hinv : s.mrInv W H) (hmem : r ∈ s.free_rects)
    (hw : fw ≤ r.width) (hh : fh ≤ r.height) :
    GSheet.mrInv W H ⟨MaxRects.split_free_rect kerf r.x r.y fw fh s.free_rects,
      s.placed_pieces ++ [⟨r.x, r.y, fw, fh, rot⟩]⟩ ∧
    FreeRectangle.inBounds W H ⟨r.x, r.y, fw, fh⟩ := by
  obtain ⟨hFb, hFP, hPb, hPpw⟩ := hinv
  have hrb := hFb r hmem
  have hpc_sub : FreeRectangle.subrect ⟨r.x, r.y, fw, fh⟩ r := by
    simp only [FreeRectangle.subrect]
    omega
  have hpcb : FreeRectangle.inBounds W H ⟨r.x, r.y, fw, fh⟩ :=
    FreeRectangle.inBounds_of_subrect W H hpc_sub hrb
  have hnew : ∀ t ∈ MaxRects.split_free_rect kerf r.x r.y fw fh s.free_rects,
      ∃ r0 ∈ s.free_rects, t.subrect r0 ∧ t.disj ⟨r.x, r.y, fw, fh⟩ := by
    intro t ht
    exact MaxRects.newRects_mem kerf r.x r.y fw fh s.free_rects hk t
      (MaxRects.prune_subset _ t ht)
  have hnewrect : Placed.rect ⟨r.x, r.y, fw, fh, rot⟩ = ⟨r.x, r.y, fw, fh⟩ := rfl
  refine ⟨⟨?_, ?_, ?_, ?_⟩, hpcb⟩
  · intro t ht
    obtain ⟨r0, hr0, hsub, _⟩ := hnew t ht
    exact FreeRectangle.inBounds_of_subrect W H hsub (hFb r0 hr0)
  · intro t ht p hp
    obtain ⟨r0, hr0, hsub, hdisj⟩ := hnew t ht
    rcases List.mem_append.mp hp with hp | hp
    · exact FreeRectangle.disj_of_subrect_left hsub (hFP r0 hr0 p hp)
    · rw [List.mem_singleton] at hp
      subst hp
      rw [hnewrect]
      exact hdisj
  · intro p hp
    rcases List.mem_append.mp hp with hp | hp
    · exact hPb p hp
    · rw [List.mem_singleton] at hp
      subst hp
      rw [hnewrect]
      exact hpcb
  · refine List.pairwise_append.mpr ⟨hPpw, by simp, ?_⟩
    intro p hp q hq
    rw [List.mem_singleton] at hq
    subst hq
    unfold Placed.disjointWith
    rw [hnewrect]
    exact FreeRectangle.disj_of_subrect_right hpc_sub
      (FreeRectangle.disj_symm (hFP r hmem p hp))

theorem MaxRects.mrNewSheetInv (st : GState) (h : st.mrInv) :
    (MaxRects.start_new_sheet st).mrInv := by
  obtain ⟨hk, hs⟩ := h
  refine ⟨hk, ?_⟩
  intro s hsm
  simp only [start_new_sheet, GState.allSheets] at hsm
  rcases List.mem_append.mp hsm with hsm | hsm
  · exact hs s (by simpa [GState.allSheets] using hsm)
  · rw [List.mem_singleton] at hsm
    subst hsm
    exact GSheet.mrInv_fresh _ _

theorem MaxRects.mrPlaceInv (st : GState) (r : FreeRectangle) (rot : Bool)
    (pw ph : ℤ) (hinv : st.mrInv)
    (hmem : r ∈ st.current_sheet.free_rects)
    (hfit : fitsIn (if rot then ph else pw) (if rot then pw else ph) r) :
    (MaxRects.place st r rot pw ph).1.mrInv ∧
    ∀ pl, (MaxRects.place st r rot pw ph).2 = some pl →
      FreeRectangle.inBounds st.sheet_width st.sheet_height ⟨pl.x, pl.y, pl.width, pl.height⟩ := by
  obtain ⟨hk, hs⟩ := hinv
  have hcur := hs st.current_sheet (by simp [GState.allSheets])
  have key := GSheet.mrInv_place st.sheet_width st.sheet_height st.saw_kerf
    st.current_sheet r _ _ rot hk hcur hmem hfit.1 hfit.2
  constructor
  · refine ⟨hk, ?_⟩
    intro s hsm
    simp only [MaxRects.place, GState.allSheets] at hsm
    rcases List.mem_append.mp hsm with hsm | hsm
    · exact hs s (by simp [GState.allSheets, hsm])
    · rw [List.mem_singleton] at hsm
      subst hsm
      exact key.1
  · intro pl hpl
    simp only [MaxRects.place, Option.some.injEq] at hpl
    subst hpl
    exact key.2

theorem MaxRects.mrPackInv (st : GState) (pw ph : ℤ) (hinv : st.mrInv) :
    (MaxRects.pack_piece st pw ph).1.mrInv ∧
    ∀ pl, (MaxRects.pack_piece st pw ph).2 = some pl →
      FreeRectangle.inBounds st.sheet_width st.sheet_height ⟨pl.x, pl.y, pl.width, pl.height⟩ := by
  unfold pack_piece
  cases hfind : find_best_free_rect pw ph st.current_sheet.free_rects with
  | some b =>
    obtain ⟨r, rot⟩ := b
    obtain ⟨hmem, hfit⟩ := mrFindSound pw ph _ r rot hfind
    exact mrPlaceInv st r rot pw ph hinv hmem hfit
  | none =>
    have hinv' := mrNewSheetInv st hinv
    dsimp only
    cases hfind2 : find_best_free_rect pw ph (start_new_sheet st).current_sheet.free_rects with
    | some b =>
      obtain ⟨r, rot⟩ := b
      obtain ⟨hmem, hfit⟩ := mrFindSound pw ph _ r rot hfind2
      exact mrPlaceInv (start_new_sheet st) r rot pw ph hinv' hmem hfit
    | none =>
      exact ⟨hinv', by intro pl h; cases h⟩

theorem MaxRects.mrRunInv (ps : List (ℤ × ℤ)) : ∀ st : GState, st.mrInv →
    (MaxRects.run st ps).mrInv := by
  induction ps with
  | nil => intro st h; exact h
  | cons p ps ih =>
    intro st h
    exact ih _ (mrPackInv st p.1 p.2 h).1

theorem MaxRects.mrInitInv (W H kerf : ℤ) (hk : 0 ≤ kerf) :
    (MaxRects.init W H kerf).mrInv := by
  refine ⟨hk, ?_⟩
  intro s hs
  simp only [GState.allSheets, init, List.nil_append, List.mem_singleton] at hs
  subst hs
  exact GSheet.mrInv_fresh W H

theorem MaxRects.mrPackNoneIff (st : GState) (pw ph : ℤ) (hinv : st.mrInv) :
    ((MaxRects.pack_piece st pw ph).2 = none ↔
      ¬((pw ≤ st.sheet_width ∧ ph ≤ st.sheet_height) ∨
        (ph ≤ st.sheet_width ∧ pw ≤ st.sheet_height))) := by
  obtain ⟨hk, hs⟩ := hinv
  have hcur := hs st.current_sheet (by simp [GState.allSheets])
  unfold pack_piece
  cases hfind : find_best_free_rect pw ph st.current_sheet.free_rects with
  | some b =>
    obtain ⟨r, rot⟩ := b
    obtain ⟨hmem, hfit⟩ := mrFindSound pw ph _ r rot hfind
    have hrb := hcur.1 r hmem
    constructor
    · intro h
      exact absurd h (by simp [place])
    · intro h
      exfalso
      apply h
      unfold FreeRectangle.inBounds at hrb
      have h1 := hfit.1
      have h2 := hfit.2
      cases rot
      · simp at h1 h2
        exact Or.inl ⟨by omega, by omega⟩
      · simp at h1 h2
        exact Or.inr ⟨by omega, by omega⟩
  | none =>
    dsimp only
    cases hfind2 : find_best_free_rect pw ph (start_new_sheet st).current_sheet.free_rects with
    | some b =>
      obtain ⟨r, rot⟩ := b
      obtain ⟨hmem, hfit⟩ := mrFindSound pw ph _ r rot hfind2
      have hr : r = ⟨0, 0, st.sheet_width, st.sheet_height⟩ := by
        simpa [start_new_sheet, freshSheet] using hmem
      subst hr
      constructor
      · intro h
        exact absurd h (by simp [place])
      · intro h
        exfalso
        apply h
        have h1 := hfit.1
        have h2 := hfit.2
        cases rot
        · simp at h1 h2
          exact Or.inl ⟨h1, h2⟩
        · simp at h1 h2
          exact Or.inr ⟨h1, h2⟩
    | none =>
      constructor
      · intro _ hfit'
        obtain ⟨rot, hsome⟩ := MaxRects.mrFindSingle pw ph
          ⟨0, 0, st.sheet_width, st.sheet_height⟩ (by simpa using hfit')
        rw [show (start_new_sheet st).current_sheet.free_rects =
          [⟨0, 0, st.sheet_width, st.sheet_height⟩] from rfl] at hfind2
        rw [hsome] at hfind2
        cases hfind2
      · intro _
        rfl

/-! ## Skyline coverage lemmas -/

theorem le_pymax_left (a b : ℤ) : a ≤ pymax a b := by
  unfold pymax
  split <;> omega

theorem le_pymax_right (a b : ℤ) : b ≤ pymax a b := by
  unfold pymax
  split <;> omega

theorem pymax_nonneg (a b : ℤ) (ha : 0 ≤ a) : 0 ≤ pymax a b := by
  unfold pymax
  split <;> omega

theorem covers_le (l : List SkylineNode) : ∀ s t : ℤ, covers s t l → s ≤ t := by
  induction l with
  | nil => intro s t h; exact le_of_eq h
  | cons n ns ih =>
    intro s t h
    obtain ⟨hx, hw, hrest⟩ := h
    have := ih _ _ hrest
    omega

theorem covers_mem_bounds (l : List SkylineNode) : ∀ s t : ℤ, covers s t l →
    ∀ n ∈ l, s ≤ n.x ∧ n.x + n.width ≤ t := by
  induction l with
  | nil => intro s t _ n hn; cases hn
  | cons m ms ih =>
    intro s t h n hn
    obtain ⟨hx, hw, hrest⟩ := h
    rcases List.mem_cons.mp hn with hn | hn
    · subst hn
      have := covers_le ms _ _ hrest
      omega
    · have := ih _ _ hrest n hn
      omega

theorem covers_append_elim (l₁ l₂ : List SkylineNode) : ∀ s t : ℤ,
    covers s t (l₁ ++ l₂) → ∃ b, covers s b l₁ ∧ covers b t l₂ := by
  induction l₁ with
  | nil => intro s t h; exact ⟨s, rfl, h⟩
  | cons n ns ih =>
    intro s t h
    obtain ⟨hx, hw, hrest⟩ := h
    obtain ⟨b, hb1, hb2⟩ := ih _ _ hrest
    exact ⟨b, ⟨hx, hw, hb1⟩, hb2⟩

theorem covers_append_intro (l₁ l₂ : List SkylineNode) : ∀ s b t : ℤ,
    covers s b l₁ → covers b t l₂ → covers s t (l₁ ++ l₂) := by
  induction l₁ with
  | nil =>
    intro s b t h1 h2
    unfold covers at h1
    subst h1
    exact h2
  | cons n ns ih =>
    intro s b t h1 h2
    obtain ⟨hx, hw, hrest⟩ := h1
    exact ⟨hx, hw, ih _ _ _ hrest h2⟩

theorem covers_point (l : List SkylineNode) : ∀ s t p : ℤ, covers s t l →
    s ≤ p → p < t → ∃ n ∈ l, n.x ≤ p ∧ p < n.x + n.width := by
  induction l with
  | nil =>
    intro s t p h hs hp
    unfold covers at h
    omega
  | cons n ns ih =>
    intro s t p h hs hp
    obtain ⟨hx, hw, hrest⟩ := h
    by_cases hcase : p < s + n.width
    · exact ⟨n, List.mem_cons_self n ns, by omega, by omega⟩
    · obtain ⟨m, hm, hm1, hm2⟩ := ih _ _ p hrest (by omega) hp
      exact ⟨m, List.mem_cons_of_mem n hm, hm1, hm2⟩

/-! ## Skyline clip and merge lemmas -/

theorem clipLoop_covers (l : List SkylineNode) : ∀ s t e : ℤ, covers s t l →
    s ≤ e → e ≤ t → covers e t (Skyline.clipLoop e l) := by
  induction l with
  | nil =>
    intro s t e h hs ht
    unfold covers at h
    unfold Skyline.clipLoop
    unfold covers
    omega
  | cons n ns ih =>
    intro s t e h hs ht
    obtain ⟨hx, hw, hrest⟩ := h
    unfold Skyline.clipLoop
    by_cases h1 : n.x < e
    · rw [if_pos h1]
      by_cases h2 : n.x + n.width - e ≤ 0
      · rw [if_pos h2]
        exact ih _ _ _ hrest (by omega) ht
      · rw [if_neg h2]
        refine ⟨rfl, ?_, ?_⟩
        · show 0 < n.x + n.width - e
          omega
        · show covers (e + (n.x + n.width - e)) t ns
          have : e + (n.x + n.width - e) = s + n.width := by omega
          rw [this]
          exact hrest
    · rw [if_neg h1]
      have : e = s := by omega
      subst this
      exact ⟨hx, hw, hrest⟩

theorem clipLoop_mem (e : ℤ) (l : List SkylineNode) :
    ∀ m ∈ Skyline.clipLoop e l, ∃ m0 ∈ l, m.y = m0.y ∧ m0.x ≤ m.x ∧
      m.x + m.width = m0.x + m0.width := by
  induction l with
  | nil => intro m hm; cases hm
  | cons n ns ih =>
    intro m hm
    unfold Skyline.clipLoop at hm
    by_cases h1 : n.x < e
    · rw [if_pos h1] at hm
      by_cases h2 : n.x + n.width - e ≤ 0
      · rw [if_pos h2] at hm
        obtain ⟨m0, hm0, h3⟩ := ih m hm
        exact ⟨m0, List.mem_cons_of_mem n hm0, h3⟩
      · rw [if_neg h2] at hm
        rcases List.mem_cons.mp hm with hm | hm
        · subst hm
          refine ⟨n, List.mem_cons_self n ns, rfl, ?_, ?_⟩
          · show n.x ≤ e
            omega
          · show e + (n.x + n.width - e) = n.x + n.width
            omega
        · exact ⟨m, List.mem_cons_of_mem n hm, rfl, le_refl _, rfl⟩
    · rw [if_neg h1] at hm
      rcases List.mem_cons.mp hm with hm | hm
      · subst hm
        exact ⟨m, List.mem_cons_self m ns, rfl, le_refl _, rfl⟩
      · exact ⟨m, List.mem_cons_of_mem n hm, rfl, le_refl _, rfl⟩

theorem mergeAux_covers (l : List SkylineNode) : ∀ (a : SkylineNode) (s t : ℤ),
    covers s t (a :: l) → covers s t (Skyline.mergeAux a l) := by
  induction l with
  | nil => intro a s t h; exact h
  | cons b rest ih =>
    intro a s t h
    obtain ⟨hx, hw, hrest1⟩ := h
    unfold Skyline.mergeAux
    by_cases hy : a.y = b.y
    · rw [if_pos hy]
      obtain ⟨hb, hbw, hrest2⟩ := hrest1
      refine ih _ s t ⟨hx, ?_, ?_⟩
      · show 0 < a.width + b.width
        omega
      · show covers (s + (a.width + b.width)) t rest
        have heq : s + (a.width + b.width) = s + a.width + b.width := by omega
        rw [heq]
        exact hrest2
    · rw [if_neg hy]
      exact ⟨hx, hw, ih b (s + a.width) t hrest1⟩

theorem mergeAux_mem_y (l : List SkylineNode) : ∀ (a : SkylineNode),
    ∀ m ∈ Skyline.mergeAux a l, m.y = a.y ∨ ∃ n ∈ l, m.y = n.y := by
  induction l with
  | nil =>
    intro a m hm
    rw [Skyline.mergeAux, List.mem_singleton] at hm
    subst hm
    exact Or.inl rfl
  | cons b rest ih =>
    intro a m hm
    unfold Skyline.mergeAux at hm
    by_cases hy : a.y = b.y
    · rw [if_pos hy] at hm
      rcases ih _ m hm with h | ⟨n, hn, h⟩
      · exact Or.inl h
      · exact Or.inr ⟨n, List.mem_cons_of_mem b hn, h⟩
    · rw [if_neg hy] at hm
      rcases List.mem_cons.mp hm with hm | hm
      · subst hm
        exact Or.inl rfl
      · rcases ih b m hm with h | ⟨n, hn, h⟩
        · exact Or.inr ⟨b, List.mem_cons_self b rest, h⟩
        · exact Or.inr ⟨n, List.mem_cons_of_mem b hn, h⟩

theorem mergeAux_head (l : List SkylineNode) : ∀ a : SkylineNode,
    ∃ w rest, Skyline.mergeAux a l = ⟨a.x, a.y, w⟩ :: rest := by
  induction l with
  | nil => intro a; exact ⟨a.width, [], rfl⟩
  | cons b rest ih =>
    intro a
    unfold Skyline.mergeAux
    by_cases hy : a.y = b.y
    · rw [if_pos hy]
      obtain ⟨w, rest', hw⟩ := ih ⟨a.x, a.y, a.width + b.width⟩
      exact ⟨w, rest', hw⟩
    · rw [if_neg hy]
      exact ⟨a.width, Skyline.mergeAux b rest, rfl⟩

theorem mergeAux_noAdj (l : List SkylineNode) : ∀ a : SkylineNode,
    noAdjEq (Skyline.mergeAux a l) := by
  induction l with
  | nil => intro a; trivial
  | cons b rest ih =>
    intro a
    unfold Skyline.mergeAux
    by_cases hy : a.y = b.y
    · rw [if_pos hy]
      exact ih _
    · rw [if_neg hy]
      obtain ⟨w, rest', hw⟩ := mergeAux_head rest b
      rw [hw]
      refine ⟨hy, ?_⟩
      rw [← hw]
      exact ih b

theorem mergeLoop_covers (l : List SkylineNode) (s t : ℤ) (h : covers s t l) :
    covers s t (Skyline.mergeLoop l) := by
  cases l with
  | nil => exact h
  | cons a rest => exact mergeAux_covers rest a s t h

theorem mergeLoop_noAdj (l : List SkylineNode) : noAdjEq (Skyline.mergeLoop l) := by
  cases l with
  | nil => trivial
  | cons a rest => exact mergeAux_noAdj rest a

theorem mergeLoop_mem_y (l : List SkylineNode) :
    ∀ m ∈ Skyline.mergeLoop l, ∃ n ∈ l, m.y = n.y := by
  cases l with
  | nil => intro m hm; cases hm
  | cons a rest =>
    intro m hm
    rcases mergeAux_mem_y rest a m hm with h | ⟨n, hn, h⟩
    · exact ⟨a, List.mem_cons_self a rest, h⟩
    · exact ⟨n, List.mem_cons_of_mem a hn, h⟩

theorem mergeAux_below (qx qw qtop : ℤ) (hqw : 0 < qw)
    (l : List SkylineNode) : ∀ (a : SkylineNode) (s t : ℤ), covers s t (a :: l) →
    (∀ n ∈ a :: l, n.x < qx + qw → qx < n.x + n.width → qtop ≤ n.y) →
    ∀ m ∈ Skyline.mergeAux a l, m.x < qx + qw → qx < m.x + m.width → qtop ≤ m.y := by
  induction l with
  | nil =>
    intro a s t hcov hP m hm h1 h2
    rw [Skyline.mergeAux, List.mem_singleton] at hm
    subst hm
    exact hP m (List.mem_cons_self m []) h1 h2
  | cons b rest ih =>
    intro a s t hcov hP m hm h1 h2
    obtain ⟨hx, hw, hrest1⟩ := hcov
    have hb := hrest1.1
    have hbw := hrest1.2.1
    have hrest2 := hrest1.2.2
    unfold Skyline.mergeAux at hm
    by_cases hy : a.y = b.y
    · rw [if_pos hy] at hm
      refine ih ⟨a.x, a.y, a.width + b.width⟩ s t ⟨hx, ?_, ?_⟩ ?_ m hm h1 h2
      · show 0 < a.width + b.width
        omega
      · show covers (s + (a.width + b.width)) t rest
        have heq : s + (a.width + b.width) = s + a.width + b.width := by omega
        rw [heq]
        exact hrest2
      · intro n hn hn1 hn2
        rcases List.mem_cons.mp hn with hn | hn
        · subst hn
          dsimp only at hn1 hn2 ⊢
          by_cases hqa : qx < s + a.width
          · refine hP a (List.mem_cons_self a _) ?_ ?_ <;> omega
          · have : qtop ≤ b.y := by
              refine hP b (List.mem_cons_of_mem a (List.mem_cons_self b rest)) ?_ ?_ <;>
                omega
            omega
        · exact hP n (List.mem_cons_of_mem a (List.mem_cons_of_mem b hn)) hn1 hn2
    · rw [if_neg hy] at hm
      rcases List.mem_cons.mp hm with hm | hm
      · subst hm
        exact hP m (List.mem_cons_self m _) h1 h2
      · exact ih b (s + a.width) t hrest1
          (fun n hn => hP n (List.mem_cons_of_mem a hn)) m hm h1 h2

theorem mergeLoop_below (qx qw qtop : ℤ) (hqw : 0 < qw)
    (l : List SkylineNode) (s t : ℤ) (hcov : covers s t l)
    (hP : ∀ n ∈ l, n.x < qx + qw → qx < n.x + n.width → qtop ≤ n.y) :
    ∀ m ∈ Skyline.mergeLoop l, m.x < qx + qw → qx < m.x + m.width → qtop ≤ m.y := by
  cases l with
  | nil => intro m hm; cases hm
  | cons a rest => exact mergeAux_below qx qw qtop hqw rest a s t hcov hP

/-! ## Soundness of the skyline fit computation -/

theorem calcFitLoop_nonpos (H fh y0 wl : ℤ) (l : List SkylineNode) (h : wl ≤ 0) :
    Skyline.calcFitLoop H fh y0 wl l = some y0 := by
  cases l with
  | nil => rfl
  | cons n ns =>
    unfold Skyline.calcFitLoop
    rw [if_neg (by omega)]

theorem calcFitLoop_sound (H fh stop e : ℤ) (l : List SkylineNode) :
    ∀ (s y0 y : ℤ), covers s stop l →
      Skyline.calcFitLoop H fh y0 (e - s) l = some y →
      y0 ≤ y ∧ (∀ n ∈ l, n.x < e → n.y ≤ y) ∧ (s < e → l ≠ [] → y + fh ≤ H) := by
  induction l with
  | nil =>
    intro s y0 y hcov heq
    have hy : y0 = y := Option.some.inj heq
    subst hy
    exact ⟨le_refl _, fun n hn => absurd hn (List.not_mem_nil n),
      fun _ hne => absurd rfl hne⟩
  | cons n ns ih =>
    intro s y0 y hcov heq
    obtain ⟨hx, hw, hrest⟩ := hcov
    unfold Skyline.calcFitLoop at heq
    by_cases hwl : 0 < e - s
    · rw [if_pos hwl] at heq
      dsimp only at heq
      by_cases hH : H < pymax y0 n.y + fh
      · rw [if_pos hH] at heq
        cases heq
      · rw [if_neg hH] at heq
        have harg : e - s - n.width = e - (s + n.width) := by omega
        rw [harg] at heq
        obtain ⟨h1, h2, h3⟩ := ih (s + n.width) (pymax y0 n.y) y hrest heq
        refine ⟨le_trans (le_pymax_left y0 n.y) h1, ?_, ?_⟩
        · intro m hm hme
          rcases List.mem_cons.mp hm with hm | hm
          · subst hm
            exact le_trans (le_pymax_right y0 m.y) h1
          · exact h2 m hm hme
        · intro hse hne
          by_cases hcont : s + n.width < e
          · cases hns : ns with
            | nil =>
              subst hns
              have hy : pymax y0 n.y = y := Option.some.inj heq
              omega
            | cons m ms =>
              exact h3 hcont (by simp [hns])
          · have : Skyline.calcFitLoop H fh (pymax y0 n.y) (e - (s + n.width)) ns =
                some (pymax y0 n.y) := calcFitLoop_nonpos _ _ _ _ _ (by omega)
            rw [this] at heq
            have hy : pymax y0 n.y = y := Option.some.inj heq
            omega
    · rw [if_neg hwl] at heq
      have hy : y0 = y := Option.some.inj heq
      subst hy
      refine ⟨le_refl _, ?_, ?_⟩
      · intro m hm hme
        have := covers_mem_bounds (n :: ns) s stop ⟨hx, hw, hrest⟩ m hm
        omega
      · intro hse _
        omega

theorem Skyline.calculate_fit_sound (W H : ℤ) (sky : List SkylineNode) (i : ℕ)
    (w h y : ℤ) (hcov : covers 0 W sky) (h0w : 0 < w)
    (hfit : Skyline.calculate_fit W H sky i w h = some y) :
    ∃ n ns, sky.drop i = n :: ns ∧ n.x + w ≤ W ∧ 0 ≤ y ∧ y + h ≤ H ∧
      (∀ m ∈ sky.drop i, m.x < n.x + w → m.y ≤ y) ∧
      (∀ m ∈ sky.take i, m.x + m.width ≤ n.x) ∧ 0 ≤ n.x := by
  unfold calculate_fit at hfit
  cases hdrop : sky.drop i with
  | nil =>
    rw [hdrop] at hfit
    cases hfit
  | cons n ns =>
    rw [hdrop] at hfit
    dsimp only at hfit
    by_cases hguard : W < n.x + w
    · rw [if_pos hguard] at hfit
      cases hfit
    · rw [if_neg hguard] at hfit
      have hcov' : covers 0 W (sky.take i ++ sky.drop i) := by
        rw [List.take_append_drop]
        exact hcov
      obtain ⟨b, hb1, hb2⟩ := covers_append_elim _ _ 0 W hcov'
      rw [hdrop] at hb2
      have hbx : n.x = b := hb2.1
      have hbge : 0 ≤ b := covers_le _ 0 b hb1
      have hfit' : Skyline.calcFitLoop H h 0 (n.x + w - n.x) (n :: ns) = some y := by
        rw [show n.x + w - n.x = w by omega]
        exact hfit
      obtain ⟨h1, h2, h3⟩ := calcFitLoop_sound H h W (n.x + w) (n :: ns) n.x 0 y
        (by rw [hbx]; exact hb2) hfit'
      refine ⟨n, ns, rfl, by omega, h1, h3 (by omega) (by simp), ?_, ?_, by omega⟩
      · exact h2
      · intro m hm
        have := covers_mem_bounds _ 0 b hb1 m hm
        omega

theorem Skyline.findPass_sound (W H pw ph w h : ℤ) (rot : Bool)
    (sky : List SkylineNode)
    (hwh : w = (if rot then ph else pw) ∧ h = (if rot then pw else ph)) :
    ∀ (l : List (ℕ × SkylineNode)) (acc : Option (ℕ × ℤ × ℤ × Bool)),
      (∀ p ∈ l, p ∈ sky.enum) → skyAccOK W H pw ph sky acc →
      skyAccOK W H pw ph sky
        (l.foldl (fun acc p =>
          match Skyline.calculate_fit W H sky p.1 w h with
          | none => acc
          | some y =>
            match acc with
            | none => some (p.1, p.2.x, y, rot)
            | some (_, _, y0, _) =>
              if y < y0 then some (p.1, p.2.x, y, rot) else acc) acc) := by
  intro l
  induction l with
  | nil => intro acc _ hacc; exact hacc
  | cons p l ih =>
    intro acc hsub hacc
    rw [List.foldl_cons]
    refine ih _ (fun q hq => hsub q (List.mem_cons_of_mem _ hq)) ?_
    have hpmem := hsub p (List.mem_cons_self p l)
    have hpget : sky[p.1]? = some p.2 := List.mem_enum_iff_getElem?.mp hpmem
    have hplen : p.1 < sky.length := (List.getElem?_eq_some_iff.mp hpget).1
    have hpdrop : sky.drop p.1 = p.2 :: sky.drop (p.1 + 1) := by
      rw [List.drop_eq_getElem_cons hplen]
      congr 1
      exact (List.getElem?_eq_some_iff.mp hpget).2
    intro i x y rot' heq
    cases hcf : Skyline.calculate_fit W H sky p.1 w h with
    | none =>
      rw [hcf] at heq
      exact hacc i x y rot' heq
    | some y1 =>
      rw [hcf] at heq
      rcases hacc0 : acc with _ | ⟨⟨i0, x0, y0, rot0⟩⟩
      · rw [hacc0] at heq
        simp only [Option.some.injEq, Prod.mk.injEq] at heq
        obtain ⟨he1, he2, he3, he4⟩ := heq
        subst he1; subst he2; subst he3; subst he4
        exact ⟨p.2, sky.drop (p.1 + 1), hpdrop, rfl, by rw [← hwh.1, ← hwh.2]; exact hcf⟩
      · rw [hacc0] at heq
        dsimp only at heq
        by_cases hlt : y1 < y0
        · rw [if_pos hlt] at heq
          simp only [Option.some.injEq, Prod.mk.injEq] at heq
          obtain ⟨he1, he2, he3, he4⟩ := heq
          subst he1; subst he2; subst he3; subst he4
          exact ⟨p.2, sky.drop (p.1 + 1), hpdrop, rfl, by rw [← hwh.1, ← hwh.2]; exact hcf⟩
        · rw [if_neg hlt] at heq
          exact hacc i x y rot' (hacc0 ▸ heq)

theorem Skyline.find_best_position_sound (W H : ℤ) (sky : List SkylineNode)
    (pw ph : ℤ) (i : ℕ) (x y : ℤ) (rot : Bool)
    (h : Skyline.find_best_position W H sky pw ph = some (i, x, y, rot)) :
    ∃ n ns, sky.drop i = n :: ns ∧ x = n.x ∧
      Skyline.calculate_fit W H sky i (if rot then ph else pw)
        (if rot then pw else ph) = some y := by
  unfold find_best_position findPass at h
  have h1 : skyAccOK W H pw ph sky
      (sky.enum.foldl (fun acc p =>
        match Skyline.calculate_fit W H sky p.1 pw ph with
        | none => acc
        | some y =>
          match acc with
          | none => some (p.1, p.2.x, y, false)
          | some (_, _, y0, _) =>
            if y < y0 then some (p.1, p.2.x, y, false) else acc) none) :=
    Skyline.findPass_sound W H pw ph pw ph false sky (by simp) sky.enum none
      (fun _ hq => hq) (fun _ _ _ _ hx => by cases hx)
  have h2 := Skyline.findPass_sound W H pw ph ph pw true sky (by simp) sky.enum _
    (fun _ hq => hq) h1
  exact h2 i x y rot h

/-! ## Skyline invariant preservation -/

theorem Skyline.add_skyline_level_covers (W kerf : ℤ) (sky : List SkylineNode)
    (i : ℕ) (n : SkylineNode) (ns : List SkylineNode) (y width height : ℤ)
    (hcov : covers 0 W sky) (hdrop : sky.drop i = n :: ns)
    (h0w : 0 < width) (hend : n.x + width ≤ W) :
    covers 0 W (Skyline.add_skyline_level kerf sky i n.x y width height) := by
  unfold add_skyline_level
  dsimp only
  have hcov' : covers 0 W (sky.take i ++ sky.drop i) := by
    rw [List.take_append_drop]
    exact hcov
  obtain ⟨b, hb1, hb2⟩ := covers_append_elim _ _ 0 W hcov'
  have hbx : b = n.x := by
    rw [hdrop] at hb2
    exact hb2.1.symm
  subst hbx
  apply mergeLoop_covers
  apply covers_append_intro _ _ 0 n.x W hb1
  exact ⟨rfl, h0w, clipLoop_covers _ n.x W (n.x + width) hb2 (by omega) hend⟩

theorem SkySheet.invPlaceSky (W H kerf : ℤ) (s : SkySheet) (i : ℕ)
    (y fw fh : ℤ) (rot : Bool)
    (hk : 0 ≤ kerf) (h0w : 0 < fw) (h0h : 0 < fh)
    (hinv : s.inv W H)
    (n : SkylineNode) (ns : List SkylineNode)
    (hdrop : s.skyline.drop i = n :: ns)
    (hfit : Skyline.calculate_fit W H s.skyline i fw fh = some y) :
    SkySheet.inv W H ⟨Skyline.add_skyline_level kerf s.skyline i n.x y fw fh,
      s.placed_pieces ++ [⟨n.x, y, fw, fh, rot⟩]⟩ ∧
    FreeRectangle.inBounds W H ⟨n.x, y, fw, fh⟩ := by
  obtain ⟨hcov, hnoadj, hny, hPb, hPpos, hbelow, hPpw⟩ := hinv
  obtain ⟨n', ns', hdrop', hend, hy0, hyH, hmax, htake, hnx0⟩ :=
    Skyline.calculate_fit_sound W H s.skyline i fw fh y hcov h0w hfit
  rw [hdrop] at hdrop'
  have hn' : n' = n := (List.cons.inj hdrop'.symm).1
  rw [hn'] at hend hmax htake hnx0
  have hmax' : ∀ m ∈ s.skyline.drop i, m.x < n.x + fw → m.y ≤ y := by
    intro m hm
    exact hmax m hm
  have hpcb : FreeRectangle.inBounds W H ⟨n.x, y, fw, fh⟩ := by
    simp only [FreeRectangle.inBounds]
    omega
  -- the decisive height bound for previously placed pieces overlapping the
  -- new piece's horizontal extent
  have hqtop : ∀ q ∈ s.placed_pieces, n.x < q.x + q.width → q.x < n.x + fw →
      q.y + q.height ≤ y := by
    intro q hq ho1 ho2
    have hqw : 0 < q.width := (hPpos q hq).1
    obtain ⟨m0, hm0, hm0a, hm0b⟩ := covers_point s.skyline 0 W (max n.x q.x)
      hcov (by omega) (by omega)
    have hm0drop : m0 ∈ s.skyline.drop i := by
      have hsplit : m0 ∈ s.skyline.take i ++ s.skyline.drop i := by
        rw [List.take_append_drop]
        exact hm0
      rcases List.mem_append.mp hsplit with h | h
      · exfalso
        have := htake m0 h
        omega
      · exact h
    have h1 : q.y + q.height ≤ m0.y := hbelow q hq m0 hm0 (by omega) (by omega)
    have h2 : m0.y ≤ y := hmax' m0 hm0drop (by omega)
    omega
  -- the pre-merge node list and its properties
  have hcovsplit : covers 0 W (s.skyline.take i ++ s.skyline.drop i) := by
    rw [List.take_append_drop]
    exact hcov
  obtain ⟨b, hb1, hb2⟩ := covers_append_elim _ _ 0 W hcovsplit
  have hbx : b = n.x := by
    rw [hdrop] at hb2
    exact hb2.1.symm
  subst hbx
  have hclipcov : covers (n.x + fw) W (Skyline.clipLoop (n.x + fw) (s.skyline.drop i)) :=
    clipLoop_covers _ n.x W (n.x + fw) hb2 (by omega) hend
  have hprecov : covers 0 W (s.skyline.take i ++
      (⟨n.x, y + fh + kerf, fw⟩ : SkylineNode) :: Skyline.clipLoop (n.x + fw) (s.skyline.drop i)) :=
    covers_append_intro _ _ 0 n.x W hb1 ⟨rfl, h0w, hclipcov⟩
  have hnew_eq : Skyline.add_skyline_level kerf s.skyline i n.x y fw fh =
      Skyline.mergeLoop (s.skyline.take i ++
        (⟨n.x, y + fh + kerf, fw⟩ : SkylineNode) ::
          Skyline.clipLoop (n.x + fw) (s.skyline.drop i)) := rfl
  -- the pre-merge "piece below skyline" facts
  have hpre_old : ∀ q ∈ s.placed_pieces,
      ∀ m ∈ s.skyline.take i ++
        (⟨n.x, y + fh + kerf, fw⟩ : SkylineNode) ::
          Skyline.clipLoop (n.x + fw) (s.skyline.drop i),
        m.x < q.x + q.width → q.x < m.x + m.width → q.y + q.height ≤ m.y := by
    intro q hq m hm hov1 hov2
    rcases List.mem_append.mp hm with hm | hm
    · exact hbelow q hq m (List.take_subset i s.skyline hm) hov1 hov2
    · rcases List.mem_cons.mp hm with hm | hm
      · subst hm
        dsimp only at hov1 hov2 ⊢
        have := hqtop q hq hov1 hov2
        omega
      · obtain ⟨m0, hm0, hmy, hmx, hmw⟩ := clipLoop_mem (n.x + fw) _ m hm
        rw [hmy]
        exact hbelow q hq m0 (List.drop_subset i s.skyline hm0) (by omega) (by omega)
  have hpre_new :
      ∀ m ∈ s.skyline.take i ++
        (⟨n.x, y + fh + kerf, fw⟩ : SkylineNode) ::
          Skyline.clipLoop (n.x + fw) (s.skyline.drop i),
        m.x < n.x + fw → n.x < m.x + m.width → y + fh ≤ m.y := by
    intro m hm hov1 hov2
    rcases List.mem_append.mp hm with hm | hm
    · have := htake m hm
      omega
    · rcases List.mem_cons.mp hm with hm | hm
      · subst hm
        dsimp only
        omega
      · have := covers_mem_bounds _ _ _ hclipcov m hm
        omega
  refine ⟨⟨?_, ?_, ?_, ?_, ?_, ?_, ?_⟩, hpcb⟩
  · exact Skyline.add_skyline_level_covers W kerf s.skyline i n ns y fw fh
      hcov hdrop h0w hend
  · rw [hnew_eq]
    exact mergeLoop_noAdj _
  · intro m hm
    rw [hnew_eq] at hm
    obtain ⟨m0, hm0, hmy⟩ := mergeLoop_mem_y _ m hm
    rw [hmy]
    rcases List.mem_append.mp hm0 with hm0 | hm0
    · exact hny m0 (List.take_subset i s.skyline hm0)
    · rcases List.mem_cons.mp hm0 with hm0 | hm0
      · subst hm0
        dsimp only
        omega
      · obtain ⟨m1, hm1, hm1y, _, _⟩ := clipLoop_mem (n.x + fw) _ m0 hm0
        rw [hm1y]
        exact hny m1 (List.drop_subset i s.skyline hm1)
  · intro p hp
    rcases List.mem_append.mp hp with hp | hp
    · exact hPb p hp
    · rw [List.mem_singleton] at hp
      subst hp
      exact hpcb
  · intro p hp
    rcases List.mem_append.mp hp with hp | hp
    · exact hPpos p hp
    · rw [List.mem_singleton] at hp
      subst hp
      exact ⟨h0w, h0h⟩
  · intro p hp m hm hov1 hov2
    rw [hnew_eq] at hm
    rcases List.mem_append.mp hp with hp | hp
    · exact mergeLoop_below p.x p.width (p.y + p.height) (hPpos p hp).1 _ 0 W
        hprecov (hpre_old p hp) m hm hov1 hov2
    · rw [List.mem_singleton] at hp
      subst hp
      have := mergeLoop_below n.x fw (y + fh) h0w _ 0 W hprecov hpre_new m hm
      exact this hov1 hov2
  · refine List.pairwise_append.mpr ⟨hPpw, by simp, ?_⟩
    intro p hp q hq
    rw [List.mem_singleton] at hq
    subst hq
    unfold Placed.disjointWith Placed.rect FreeRectangle.disj
    dsimp only
    by_cases hov : n.x < p.x + p.width ∧ p.x < n.x + fw
    · have := hqtop p hp hov.1 hov.2
      omega
    · omega

theorem SkySheet.invFreshSky (W H : ℤ) (hW : 0 < W) :
    SkySheet.inv W H ⟨[⟨0, 0, W⟩], []⟩ := by
  refine ⟨⟨rfl, hW, ?_⟩, trivial, ?_, ?_, ?_, ?_, ?_⟩
  · show covers (0 + W) W []
    unfold covers
    omega
  · intro m hm
    rw [List.mem_singleton] at hm
    subst hm
    exact le_refl 0
  all_goals simp

theorem Skyline.skyNewSheetInv (st : SkyState) (h : st.inv) :
    (Skyline.start_new_sheet st).inv := by
  obtain ⟨hW, hk, hs⟩ := h
  refine ⟨hW, hk, ?_⟩
  intro s hsm
  simp only [start_new_sheet, SkyState.allSheets] at hsm
  rcases List.mem_append.mp hsm with hsm | hsm
  · exact hs s (by simpa [SkyState.allSheets] using hsm)
  · rw [List.mem_singleton] at hsm
    subst hsm
    exact SkySheet.invFreshSky _ _ hW

theorem Skyline.skyPlaceInv (st : SkyState) (i : ℕ) (x y : ℤ) (rot : Bool)
    (pw ph : ℤ) (hinv : st.inv) (h0w : 0 < pw) (h0h : 0 < ph)
    (hfind : Skyline.find_best_position st.sheet_width st.sheet_height
      st.current_sheet.skyline pw ph = some (i, x, y, rot)) :
    (Skyline.place st i x y rot pw ph).1.inv ∧
    ∀ pl, (Skyline.place st i x y rot pw ph).2 = some pl →
      FreeRectangle.inBounds st.sheet_width st.sheet_height ⟨pl.x, pl.y, pl.width, pl.height⟩ := by
  obtain ⟨hW, hk, hs⟩ := hinv
  have hcursheet := hs st.current_sheet (by simp [SkyState.allSheets])
  obtain ⟨n, ns, hdrop, hx, hfit⟩ :=
    Skyline.find_best_position_sound _ _ _ _ _ i x y rot hfind
  have h0fw : 0 < (if rot then ph else pw) := by cases rot <;> simp [h0w, h0h]
  have h0fh : 0 < (if rot then pw else ph) := by cases rot <;> simp [h0w, h0h]
  have key := SkySheet.invPlaceSky st.sheet_width st.sheet_height st.saw_kerf
    st.current_sheet i y _ _ rot hk h0fw h0fh hcursheet n ns hdrop hfit
  subst hx
  constructor
  · refine ⟨hW, hk, ?_⟩
    intro sh hsh
    simp only [Skyline.place, SkyState.allSheets] at hsh
    rcases List.mem_append.mp hsh with hsh | hsh
    · exact hs sh (by simp [SkyState.allSheets, hsh])
    · rw [List.mem_singleton] at hsh
      subst hsh
      exact key.1
  · intro pl hpl
    simp only [Skyline.place, Option.some.injEq] at hpl
    subst hpl
    exact key.2

theorem Skyline.skyPackInv (st : SkyState) (pw ph : ℤ) (hinv : st.inv)
    (h0w : 0 < pw) (h0h : 0 < ph) :
    (Skyline.pack_piece st pw ph).1.inv ∧
    ∀ pl, (Skyline.pack_piece st pw ph).2 = some pl →
      FreeRectangle.inBounds st.sheet_width st.sheet_height ⟨pl.x, pl.y, pl.width, pl.height⟩ := by
  unfold pack_piece
  cases hfind : find_best_position st.sheet_width st.sheet_height
      st.current_sheet.skyline pw ph with
  | some b =>
    obtain ⟨i, x, y, rot⟩ := b
    exact skyPlaceInv st i x y rot pw ph hinv h0w h0h hfind
  | none =>
    have hinv' := skyNewSheetInv st hinv
    dsimp only
    cases hfind2 : find_best_position (start_new_sheet st).sheet_width
        (start_new_sheet st).sheet_height (start_new_sheet st).current_sheet.skyline pw ph with
    | some b =>
      obtain ⟨i, x, y, rot⟩ := b
      exact skyPlaceInv (start_new_sheet st) i x y rot pw ph hinv' h0w h0h hfind2
    | none =>
      exact ⟨hinv', by intro pl h; cases h⟩

theorem Skyline.skyRunInv (ps : List (ℤ × ℤ)) : ∀ st : SkyState, st.inv →
    (∀ p ∈ ps, 0 < p.1 ∧ 0 < p.2) → (Skyline.run st ps).inv := by
  induction ps with
  | nil => intro st h _; exact h
  | cons p ps ih =>
    intro st h hp
    exact ih _ (skyPackInv st p.1 p.2 h (hp p (by simp)).1 (hp p (by simp)).2).1
      (fun q hq => hp q (by simp [hq]))

theorem Skyline.skyInitInv (W H kerf : ℤ) (hW : 0 < W) (hk : 0 ≤ kerf) :
    (Skyline.init W H kerf).inv := by
  refine ⟨hW, hk, ?_⟩
  intro s hs
  simp only [SkyState.allSheets, init, List.nil_append, List.mem_singleton] at hs
  subst hs
  exact SkySheet.invFreshSky W H hW

theorem Skyline.find_some_fit (st : SkyState) (pw ph : ℤ) (hinv : st.inv)
    (h0w : 0 < pw) (h0h : 0 < ph) (i : ℕ) (x y : ℤ) (rot : Bool)
    (hfind : Skyline.find_best_position st.sheet_width st.sheet_height
      st.current_sheet.skyline pw ph = some (i, x, y, rot)) :
    (pw ≤ st.sheet_width ∧ ph ≤ st.sheet_height) ∨
      (ph ≤ st.sheet_width ∧ pw ≤ st.sheet_height) := by
  obtain ⟨hW, hk, hs⟩ := hinv
  have hcursheet := hs st.current_sheet (by simp [SkyState.allSheets])
  obtain ⟨n, ns, hdrop, hx, hfit⟩ :=
    Skyline.find_best_position_sound _ _ _ _ _ i x y rot hfind
  have h0fw : 0 < (if rot then ph else pw) := by cases rot <;> simp [h0w, h0h]
  obtain ⟨n', ns', hdrop', hend, hy0, hyH, _, _, hnx0⟩ :=
    Skyline.calculate_fit_sound _ _ _ i _ _ y hcursheet.1 h0fw hfit
  rw [hdrop] at hdrop'
  have hn' : n' = n := (List.cons.inj hdrop'.symm).1
  rw [hn'] at hend hnx0
  cases rot
  · simp only [Bool.false_eq_true, if_false] at hend hyH
    exact Or.inl ⟨by omega, by omega⟩
  · simp only [if_pos] at hend hyH
    exact Or.inr ⟨by omega, by omega⟩

theorem Skyline.skyPackNoneIff (st : SkyState) (pw ph : ℤ) (hinv : st.inv)
    (h0w : 0 < pw) (h0h : 0 < ph) :
    ((Skyline.pack_piece st pw ph).2 = none ↔
      ¬((pw ≤ st.sheet_width ∧ ph ≤ st.sheet_height) ∨
        (ph ≤ st.sheet_width ∧ pw ≤ st.sheet_height))) := by
  unfold pack_piece
  cases hfind : find_best_position st.sheet_width st.sheet_height
      st.current_sheet.skyline pw ph with
  | some b =>
    obtain ⟨i, x, y, rot⟩ := b
    constructor
    · intro h
      exact absurd h (by simp [place])
    · intro h
      exact absurd (Skyline.find_some_fit st pw ph hinv h0w h0h i x y rot hfind) h
  | none =>
    have hinv' := skyNewSheetInv st hinv
    dsimp only
    cases hfind2 : find_best_position (start_new_sheet st).sheet_width
        (start_new_sheet st).sheet_height (start_new_sheet st).current_sheet.skyline pw ph with
    | some b =>
      obtain ⟨i, x, y, rot⟩ := b
      constructor
      · intro h
        exact absurd h (by simp [place])
      · intro h
        exact absurd (Skyline.find_some_fit (start_new_sheet st) pw ph hinv'
          h0w h0h i x y rot hfind2) h
    | none =>
      constructor
      · intro _ hfit'
        obtain ⟨rot, hsome⟩ := Skyline.skyFindSingle st.sheet_width
          st.sheet_height pw ph h0w h0h hfit'
        rw [show (start_new_sheet st).current_sheet.skyline =
          [⟨0, 0, st.sheet_width⟩] from rfl] at hfind2
        rw [show (start_new_sheet st).sheet_width = st.sheet_width from rfl,
          show (start_new_sheet st).sheet_height = st.sheet_height from rfl] at hfind2
        rw [hsome] at hfind2
        cases hfind2
      · intro _
        rfl

/-! ## Sheet dimensions are constant across a run -/

theorem Guillotine.gPackWidth (st : GState) (pw ph : ℤ) :
    (Guillotine.pack_piece st pw ph).1.sheet_width = st.sheet_width ∧
    (Guillotine.pack_piece st pw ph).1.sheet_height = st.sheet_height := by
  unfold pack_piece
  split
  · simp [place]
  · dsimp only
    split
    · simp [place, start_new_sheet]
    · simp [start_new_sheet]

theorem Guillotine.gRunWidth (ps : List (ℤ × ℤ)) : ∀ st : GState,
    (Guillotine.run st ps).sheet_width = st.sheet_width ∧
    (Guillotine.run st ps).sheet_height = st.sheet_height := by
  induction ps with
  | nil => intro st; exact ⟨rfl, rfl⟩
  | cons p ps ih =>
    intro st
    have h1 := ih (pack_piece st p.1 p.2).1
    have h2 := gPackWidth st p.1 p.2
    exact ⟨h1.1.trans h2.1, h1.2.trans h2.2⟩

theorem MaxRects.mrPackWidth (st : GState) (pw ph : ℤ) :
    (MaxRects.pack_piece st pw ph).1.sheet_width = st.sheet_width ∧
    (MaxRects.pack_piece st pw ph).1.sheet_height = st.sheet_height := by
  unfold pack_piece
  split
  · simp [place]
  · dsimp only
    split
    · simp [place, start_new_sheet]
    · simp [start_new_sheet]

theorem MaxRects.mrRunWidth (ps : List (ℤ × ℤ)) : ∀ st : GState,
    (MaxRects.run st ps).sheet_width = st.sheet_width ∧
    (MaxRects.run st ps).sheet_height = st.sheet_height := by
  induction ps with
  | nil => intro st; exact ⟨rfl, rfl⟩
  | cons p ps ih =>
    intro st
    have h1 := ih (pack_piece st p.1 p.2).1
    have h2 := mrPackWidth st p.1 p.2
    exact ⟨h1.1.trans h2.1, h1.2.trans h2.2⟩

theorem Skyline.skyPackWidth (st : SkyState) (pw ph : ℤ) :
    (Skyline.pack_piece st pw ph).1.sheet_width = st.sheet_width ∧
    (Skyline.pack_piece st pw ph).1.sheet_height = st.sheet_height := by
  unfold pack_piece
  split
  · simp [place]
  · dsimp only
    split
    · simp [place, start_new_sheet]
    · simp [start_new_sheet]

theorem Skyline.skyRunWidth (ps : List (ℤ × ℤ)) : ∀ st : SkyState,
    (Skyline.run st ps).sheet_width = st.sheet_width ∧
    (Skyline.run st ps).sheet_height = st.sheet_height := by
  induction ps with
  | nil => intro st; exact ⟨rfl, rfl⟩
  | cons p ps ih =>
    intro st
    have h1 := ih (pack_piece st p.1 p.2).1
    have h2 := skyPackWidth st p.1 p.2
    exact ⟨h1.1.trans h2.1, h1.2.trans h2.2⟩

/-! ## Claims C2 to C5 -/

theorem unfit_iff (W H pw ph : ℤ) :
    (¬((pw ≤ W ∧ ph ≤ H) ∨ (ph ≤ W ∧ pw ≤ H))) ↔
      (pymin W H < pymin pw ph ∨ pymax W H < pymax pw ph) := by
  unfold pymin pymax
  split_ifs <;> omega

/-- C3: for every strategy, every construction with positive sheet dimensions
and non-negative kerf, and every sequence of `pack_piece` calls with positive
piece dimensions, the occupied rectangles of any two placements recorded on
the same sheet never intersect with positive area. -/
theorem claim_C3 (W H kerf : ℤ) (ps : List (ℤ × ℤ)) (hW : 0 < W) (hH : 0 < H)
    (hk : 0 ≤ kerf) (hps : ∀ p ∈ ps, 0 < p.1 ∧ 0 < p.2) :
    (∀ s ∈ (Guillotine.run (Guillotine.init W H kerf) ps).allSheets,
      List.Pairwise Placed.disjointWith s.placed_pieces) ∧
    (∀ s ∈ (MaxRects.run (MaxRects.init W H kerf) ps).allSheets,
      List.Pairwise Placed.disjointWith s.placed_pieces) ∧
    (∀ s ∈ (Skyline.run (Skyline.init W H kerf) ps).allSheets,
      List.Pairwise Placed.disjointWith s.placed_pieces) := by
  refine ⟨?_, ?_, ?_⟩
  · intro s hs
    exact ((Guillotine.gRunInv ps _ (Guillotine.gInitInv W H kerf hW hH hk)
      hps).2.2.2 s hs).2.2.2.2.2
  · intro s hs
    exact ((MaxRects.mrRunInv ps _ (MaxRects.mrInitInv W H kerf hk)).2 s hs).2.2.2
  · intro s hs
    exact ((Skyline.skyRunInv ps _ (Skyline.skyInitInv W H kerf hW hk)
      hps).2.2 s hs).2.2.2.2.2.2

theorem claim_C3_wit :
    List.Pairwise Placed.disjointWith
      (Guillotine.run (Guillotine.init 10 10 0) [(3, 3), (4, 4)]).current_sheet.placed_pieces :=
  (claim_C3 10 10 0 [(3, 3), (4, 4)] (by decide) (by decide) (by decide)
    (by decide)).1 _ (by simp [GState.allSheets])

/-- C4: for every strategy and every sequence of calls with positive piece
dimensions, every returned placement satisfies `0 ≤ x`, `0 ≤ y`,
`x + placed_width ≤ sheet_width` and `y + placed_height ≤ sheet_height`. -/
theorem claim_C4 (W H kerf : ℤ) (ps : List (ℤ × ℤ)) (pw ph : ℤ)
    (hW : 0 < W) (hH : 0 < H) (hk : 0 ≤ kerf)
    (hps : ∀ p ∈ ps, 0 < p.1 ∧ 0 < p.2) (h0w : 0 < pw) (h0h : 0 < ph) :
    (∀ pl, (Guillotine.pack_piece (Guillotine.run (Guillotine.init W H kerf) ps) pw ph).2 =
        some pl → 0 ≤ pl.x ∧ 0 ≤ pl.y ∧ pl.x + pl.width ≤ W ∧ pl.y + pl.height ≤ H) ∧
    (∀ pl, (MaxRects.pack_piece (MaxRects.run (MaxRects.init W H kerf) ps) pw ph).2 =
        some pl → 0 ≤ pl.x ∧ 0 ≤ pl.y ∧ pl.x + pl.width ≤ W ∧ pl.y + pl.height ≤ H) ∧
    (∀ pl, (Skyline.pack_piece (Skyline.run (Skyline.init W H kerf) ps) pw ph).2 =
        some pl → 0 ≤ pl.x ∧ 0 ≤ pl.y ∧ pl.x + pl.width ≤ W ∧ pl.y + pl.height ≤ H) := by
  refine ⟨?_, ?_, ?_⟩
  · intro pl hpl
    have hw := Guillotine.gRunWidth ps (Guillotine.init W H kerf)
    have := (Guillotine.gPackInv _ pw ph
      (Guillotine.gRunInv ps _ (Guillotine.gInitInv W H kerf hW hH hk) hps)
      h0w h0h).2 pl hpl
    rw [hw.1, hw.2] at this
    exact this
  · intro pl hpl
    have hw := MaxRects.mrRunWidth ps (MaxRects.init W H kerf)
    have := (MaxRects.mrPackInv _ pw ph
      (MaxRects.mrRunInv ps _ (MaxRects.mrInitInv W H kerf hk))).2 pl hpl
    rw [hw.1, hw.2] at this
    exact this
  · intro pl hpl
    have hw := Skyline.skyRunWidth ps (Skyline.init W H kerf)
    have := (Skyline.skyPackInv _ pw ph
      (Skyline.skyRunInv ps _ (Skyline.skyInitInv W H kerf hW hk) hps)
      h0w h0h).2 pl hpl
    rw [hw.1, hw.2] at this
    exact this

theorem claim_C4_wit :
    (Skyline.pack_piece (Skyline.run (Skyline.init 10 10 1) [(6, 6)]) 3 3).2 =
      some ⟨0, 6, 0, 3, 3, false⟩ ∧
    (0 ≤ (6 : ℤ) ∧ 0 ≤ (0 : ℤ) ∧ (6 : ℤ) + 3 ≤ 10 ∧ (0 : ℤ) + 3 ≤ 10) := by
  refine ⟨by decide, ?_⟩
  exact (claim_C4 10 10 1 [(6, 6)] 3 3 (by decide) (by decide) (by decide)
    (by decide) (by decide) (by decide)).2.2 ⟨0, 6, 0, 3, 3, false⟩ (by decide)

/-- C5: for the Skyline packer (positive sheet width, non-negative kerf) and
every sequence of calls with positive piece dimensions, the skyline node list
of every sheet tiles `[0, sheet_width)` with no gaps and no overlaps, ordered
by ascending `x` (this is what `covers` states), and no two adjacent nodes
share the same height. -/
theorem claim_C5 (W H kerf : ℤ) (ps : List (ℤ × ℤ)) (hW : 0 < W) (hH : 0 < H)
    (hk : 0 ≤ kerf) (hps : ∀ p ∈ ps, 0 < p.1 ∧ 0 < p.2) :
    ∀ s ∈ (Skyline.run (Skyline.init W H kerf) ps).allSheets,
      covers 0 W s.skyline ∧ noAdjEq s.skyline := by
  intro s hs
  have hw := Skyline.skyRunWidth ps (Skyline.init W H kerf)
  have hinv := (Skyline.skyRunInv ps _ (Skyline.skyInitInv W H kerf hW hk) hps).2.2 s hs
  rw [hw.1] at hinv
  exact ⟨hinv.1, hinv.2.1⟩

theorem claim_C5_wit :
    covers 0 100
      (Skyline.run (Skyline.init 100 100 3) [(60, 60), (30, 20)]).current_sheet.skyline ∧
    noAdjEq
      (Skyline.run (Skyline.init 100 100 3) [(60, 60), (30, 20)]).current_sheet.skyline :=
  claim_C5 100 100 3 [(60, 60), (30, 20)] (by decide) (by decide) (by decide)
    (by decide) _ (by simp [SkyState.allSheets])

/-- C2 (amended): for every strategy, a `pack_piece` call on any reachable
state with a positive-dimension piece returns the failure value if and only
if the piece cannot fit even on an empty sheet, i.e. its smaller dimension
exceeds the sheet's smaller dimension OR its larger dimension exceeds the
sheet's larger dimension; otherwise a placement is returned. -/
theorem claim_C2 (W H kerf : ℤ) (ps : List (ℤ × ℤ)) (pw ph : ℤ)
    (hW : 0 < W) (hH : 0 < H) (hk : 0 ≤ kerf)
    (hps : ∀ p ∈ ps, 0 < p.1 ∧ 0 < p.2) (h0w : 0 < pw) (h0h : 0 < ph) :
    ((Guillotine.pack_piece (Guillotine.run (Guillotine.init W H kerf) ps) pw ph).2 = none ↔
      (pymin W H < pymin pw ph ∨ pymax W H < pymax pw ph)) ∧
    ((MaxRects.pack_piece (MaxRects.run (MaxRects.init W H kerf) ps) pw ph).2 = none ↔
      (pymin W H < pymin pw ph ∨ pymax W H < pymax pw ph)) ∧
    ((Skyline.pack_piece (Skyline.run (Skyline.init W H kerf) ps) pw ph).2 = none ↔
      (pymin W H < pymin pw ph ∨ pymax W H < pymax pw ph)) := by
  refine ⟨?_, ?_, ?_⟩
  · have hw := Guillotine.gRunWidth ps (Guillotine.init W H kerf)
    have h := Guillotine.gPackNoneIff _ pw ph
      (Guillotine.gRunInv ps _ (Guillotine.gInitInv W H kerf hW hH hk) hps)
    rw [hw.1, hw.2] at h
    exact h.trans (unfit_iff W H pw ph)
  · have hw := MaxRects.mrRunWidth ps (MaxRects.init W H kerf)
    have h := MaxRects.mrPackNoneIff _ pw ph
      (MaxRects.mrRunInv ps _ (MaxRects.mrInitInv W H kerf hk))
    rw [hw.1, hw.2] at h
    exact h.trans (unfit_iff W H pw ph)
  · have hw := Skyline.skyRunWidth ps (Skyline.init W H kerf)
    have h := Skyline.skyPackNoneIff _ pw ph
      (Skyline.skyRunInv ps _ (Skyline.skyInitInv W H kerf hW hk) hps) h0w h0h
    rw [hw.1, hw.2] at h
    exact h.trans (unfit_iff W H pw ph)

theorem claim_C2_wit :
    (Guillotine.pack_piece (Guillotine.run (Guillotine.init 1000 1000 0) []) 2000 10).2 =
      none ∧ (pymin 1000 1000 < pymin 2000 10 ∨ pymax 1000 1000 < pymax 2000 10) := by
  have h := (claim_C2 1000 1000 0 [] 2000 10 (by decide) (by decide) (by decide)
    (by decide) (by decide) (by decide)).1
  exact ⟨h.mpr (by decide), by decide⟩

/-- C2 as stated is false: with sheet `1000 × 1000` the piece `2000 × 10` is
not "Unplaceable" in the claim's sense (its smaller dimension 10 does not
exceed the sheet's smaller dimension), so the claim promises a placement,
yet `pack_piece` returns the failure value. -/
theorem claim_C2_cex :
    (Guillotine.pack_piece (Guillotine.init 1000 1000 0) 2000 10).2 = none ∧
    ¬(pymin 1000 1000 < pymin 2000 10 ∧ pymax 1000 1000 < pymax 2000 10) := by
  exact ⟨by decide, by decide⟩

/-! ## The Best-Short-Side-Fit selection rule (C8) -/

theorem Guillotine.tryRect_eq_updMin (acc : Option (FreeRectangle × Bool × ℤ))
    (r : FreeRectangle) (w h : ℤ) (rot : Bool) :
    Guillotine.tryRect acc r w h rot =
      if w ≤ r.width ∧ h ≤ r.height then
        gUpdMin acc (r, rot, pymin (r.width - w) (r.height - h))
      else acc := by
  rcases acc with _ | ⟨r0, rot0, s0⟩ <;>
    (unfold Guillotine.tryRect gUpdMin; split_ifs <;> rfl)

theorem Guillotine.stepRect_eq (pw ph : ℤ) (acc : Option (FreeRectangle × Bool × ℤ))
    (r : FreeRectangle) :
    Guillotine.stepRect pw ph acc r =
      ((if pw ≤ r.width ∧ ph ≤ r.height then
          [(r, false, pymin (r.width - pw) (r.height - ph))] else []) ++
        (if ph ≤ r.width ∧ pw ≤ r.height then
          [(r, true, pymin (r.width - ph) (r.height - pw))] else [])).foldl gUpdMin acc := by
  unfold stepRect
  rw [Guillotine.tryRect_eq_updMin, Guillotine.tryRect_eq_updMin]
  by_cases h1 : pw ≤ r.width ∧ ph ≤ r.height
  · by_cases h2 : ph ≤ r.width ∧ pw ≤ r.height
    · simp [h1, h2]
    · simp [h1, h2]
  · by_cases h2 : ph ≤ r.width ∧ pw ≤ r.height
    · simp [h1, h2]
    · simp [h1, h2]

theorem gFoldl_eq (pw ph : ℤ) : ∀ (l : List FreeRectangle)
    (acc : Option (FreeRectangle × Bool × ℤ)),
    l.foldl (Guillotine.stepRect pw ph) acc = (gCandidates pw ph l).foldl gUpdMin acc := by
  intro l
  induction l with
  | nil => intro acc; rfl
  | cons r l ih =>
    intro acc
    rw [List.foldl_cons, ih]
    unfold gCandidates
    rw [List.flatMap_cons, List.foldl_append]
    rw [Guillotine.stepRect_eq]

theorem firstMin_cons (c : FreeRectangle × Bool × ℤ)
    (cs : List (FreeRectangle × Bool × ℤ)) :
    firstMin (c :: cs) = match firstMin cs with
      | none => some c
      | some d => if d.2.2 < c.2.2 then some d else some c := rfl

theorem gFoldl_firstMin : ∀ (cs : List (FreeRectangle × Bool × ℤ))
    (acc : Option (FreeRectangle × Bool × ℤ)),
    cs.foldl gUpdMin acc = gMergeAcc acc (firstMin cs) := by
  intro cs
  induction cs with
  | nil => intro acc; cases acc <;> rfl
  | cons c cs ih =>
    intro acc
    rw [List.foldl_cons, ih, firstMin_cons]
    cases hfm : firstMin cs with
    | none =>
      rcases acc with _ | a
      · rfl
      · by_cases hc : c.2.2 < a.2.2
        · simp [gUpdMin, gMergeAcc, hc]
        · simp [gUpdMin, gMergeAcc, hc]
    | some d =>
      rcases acc with _ | a
      · by_cases hdc : d.2.2 < c.2.2
        · simp [gUpdMin, gMergeAcc, hdc]
        · simp [gUpdMin, gMergeAcc, hdc]
      · by_cases hca : c.2.2 < a.2.2
        · by_cases hdc : d.2.2 < c.2.2
          · have h3 : d.2.2 < a.2.2 := by omega
            simp [gUpdMin, gMergeAcc, hca, hdc, h3]
          · simp [gUpdMin, gMergeAcc, hca, hdc]
        · by_cases hdc : d.2.2 < c.2.2
          · simp [gUpdMin, gMergeAcc, hca, hdc]
          · have h3 : ¬ d.2.2 < a.2.2 := by omega
            simp [gUpdMin, gMergeAcc, hca, hdc, h3]

theorem firstMin_none (cs : List (FreeRectangle × Bool × ℤ)) :
    firstMin cs = none ↔ cs = [] := by
  cases cs with
  | nil => simp [firstMin]
  | cons c cs =>
    unfold firstMin
    cases firstMin cs with
    | none => simp
    | some d =>
      dsimp only
      split <;> simp

theorem firstMin_spec : ∀ (cs : List (FreeRectangle × Bool × ℤ))
    (c : FreeRectangle × Bool × ℤ), firstMin cs = some c →
    ∃ pre post, cs = pre ++ c :: post ∧ (∀ d ∈ pre, c.2.2 < d.2.2) ∧
      (∀ d ∈ post, c.2.2 ≤ d.2.2) := by
  intro cs
  induction cs with
  | nil => intro c h; cases h
  | cons a cs ih =>
    intro c h
    unfold firstMin at h
    cases hfm : firstMin cs with
    | none =>
      rw [hfm] at h
      have hnil := (firstMin_none cs).mp hfm
      subst hnil
      have hac : a = c := Option.some.inj h
      subst hac
      exact ⟨[], [], rfl, by simp, by simp⟩
    | some d =>
      rw [hfm] at h
      dsimp only at h
      by_cases hdc : d.2.2 < a.2.2
      · rw [if_pos hdc] at h
        have hdciff : d = c := Option.some.inj h
        rw [← hdciff]
        obtain ⟨pre, post, heq, hpre, hpost⟩ := ih d hfm
        refine ⟨a :: pre, post, by rw [heq]; rfl, ?_, hpost⟩
        intro e he
        rcases List.mem_cons.mp he with he | he
        · subst he
          exact hdc
        · exact hpre e he
      · rw [if_neg hdc] at h
        have hac : a = c := Option.some.inj h
        subst hac
        obtain ⟨pre, post, heq, hpre, hpost⟩ := ih d hfm
        refine ⟨[], cs, rfl, by simp, ?_⟩
        intro e he
        rw [heq] at he
        rcases List.mem_append.mp he with he | he
        · have := hpre e he
          omega
        · rcases List.mem_cons.mp he with he | he
          · subst he
            omega
          · have := hpost e he
            omega

/-- C8: the Guillotine search realizes the Best-Short-Side-Fit rule.  First
conjunct: `_find_best_free_rect` returns exactly the first candidate of the
ordered candidate list (free rectangles in iteration order, unrotated before
rotated for the same rectangle, scored by `min(leftover_x, leftover_y)`)
attaining the minimal score.  Second conjunct: the first-minimum selector
indeed picks a candidate whose score is strictly below every earlier
candidate's and at most every later candidate's.  Third conjunct: a
successful `pack_piece` on the active sheet places the piece at the chosen
rectangle's corner with the chosen orientation. -/
theorem claim_C8 :
    (∀ (pw ph : ℤ) (rects : List FreeRectangle),
      Guillotine.find_best_free_rect pw ph rects =
        (firstMin (gCandidates pw ph rects)).map fun c => (c.1, c.2.1)) ∧
    (∀ (cs : List (FreeRectangle × Bool × ℤ)) (c : FreeRectangle × Bool × ℤ),
      firstMin cs = some c →
      ∃ pre post, cs = pre ++ c :: post ∧ (∀ d ∈ pre, c.2.2 < d.2.2) ∧
        (∀ d ∈ post, c.2.2 ≤ d.2.2)) ∧
    (∀ (st : GState) (pw ph : ℤ) (r : FreeRectangle) (rot : Bool),
      Guillotine.find_best_free_rect pw ph st.current_sheet.free_rects = some (r, rot) →
      (Guillotine.pack_piece st pw ph).2 =
        some ⟨st.sheets_prev.length, r.x, r.y, if rot then ph else pw,
          if rot then pw else ph, rot⟩) := by
  refine ⟨?_, firstMin_spec, ?_⟩
  · intro pw ph rects
    unfold Guillotine.find_best_free_rect
    rw [gFoldl_eq, gFoldl_firstMin]
    cases firstMin (gCandidates pw ph rects) <;> rfl
  · intro st pw ph r rot h
    unfold Guillotine.pack_piece
    rw [h]
    rfl

theorem claim_C8_wit :
    Guillotine.find_best_free_rect 4 5 [⟨0, 0, 10, 10⟩] =
      (firstMin (gCandidates 4 5 [⟨0, 0, 10, 10⟩])).map (fun c => (c.1, c.2.1)) ∧
    (Guillotine.pack_piece (Guillotine.init 10 10 0) 4 5).2 =
      some ⟨0, 0, 0, 4, 5, false⟩ :=
  ⟨claim_C8.1 4 5 _,
   claim_C8.2.2 (Guillotine.init 10 10 0) 4 5 ⟨0, 0, 10, 10⟩ false (by decide)⟩
